import Mathlib

/-!
Verification development for the SwatDB buffer manager core
(src/bufmgr.cpp, src/bm_frame.cpp, src/bm_buffermap.cpp,
src/bm_policies.cpp, src/bm_replacement.cpp).

The C++ core is shallowly embedded as executable Lean functions over an
explicit state.  Machine integers are modelled as `Nat` (pin counts never
go negative: every decrement is guarded by a zero check in the source;
the `uint64` statistics counters wrap explicitly modulo `2^64` where the
source tests for wrap-around).  The C++ `double` statistic
`avg_frames_checked` is modelled with exact rationals; no theorem below
depends on its value.  Exceptions become `Except`: a C++ `throw` after
partial mutation returns the mutated state together with the error, which
matches the source where member state mutated before a `throw` persists.
The page byte buffers (`buf_pool`) are not modelled; the pointer
`&buf_pool[i]` returned by the manager is represented by the frame index
`i`, and calls to the disk manager's `writePage` / `removeFile` are
recorded in logs so that theorems can talk about which pages were written
back.  `BUF_SIZE` (a compile-time constant defined outside src/) is a
`bufSize` parameter throughout.  The disk manager is an external
collaborator; its results enter each operation as oracle arguments.
The replacement policy's possible non-termination (the CLOCK scan is a
`while(true)` loop) is modelled with fuel: a result of `none` means the
loop did not exit within the given fuel, for any fuel.
-/

namespace BufMgrSpec

/-- PageId: pair of file id and page number (both u32 in the source). -/
structure PageId where
  file_id : Nat
  page_num : Nat
deriving DecidableEq

/-- Modelled from the spec: the sentinel `INVALID_PAGE_ID` is declared in
a header outside src/ ; the spec only requires that it is a distinguished
sentinel value.  We model it as the componentwise all-ones u32 pair. -/
def INVALID_PAGE_ID : PageId := ⟨4294967295, 4294967295⟩

/-- Frame metadata record (src/bm_frame.h): page id, pin count
(`int`, never negative at observable points), valid bit, dirty bit. -/
structure Frame where
  page_id : PageId
  pin_count : Nat
  valid : Bool
  dirty : Bool
deriving DecidableEq

/-- Frame::resetFrame / the state established by the Frame constructor:
page_id = INVALID_PAGE_ID, pin_count 0, valid false, dirty false. -/
def resetFrame : Frame := ⟨INVALID_PAGE_ID, 0, false, false⟩

/-- Frame::loadFrame: reset, then set page_id, pin_count 1, valid true. -/
def loadFrame (new_pid : PageId) : Frame :=
  { resetFrame with page_id := new_pid, pin_count := 1, valid := true }

/-- Error kinds thrown by the buffer manager and the disk manager
(swatdb_exceptions.h, external header; constructors named after the
exception classes used by the sources in src/). -/
inductive Err where
  | pageNotFound (p : PageId)
  | pageAlreadyLoaded (p : PageId)
  | pageNotPinned (p : PageId)
  | pagePinned (p : PageId)
  | invalidPageId (p : PageId)
  | insufficientSpace
  | invalidFileIdDisk
  | invalidPageNumDisk
  | insufficientSpaceDisk
  | diskError
deriving DecidableEq

/-- BufferMap (src/bm_buffermap.cpp): wrapper around a PageId → FrameId
map; modelled as an association list (`std::unordered_map` iteration
order is irrelevant to every claim; keys are kept duplicate-free by
`insert`). -/
structure BufferMap where
  entries : List (PageId × Nat)
deriving DecidableEq

/-- BufferMap::contains. -/
def BufferMap.contains (m : BufferMap) (p : PageId) : Bool :=
  m.entries.any (fun e => e.1 = p)

/-- BufferMap::get: FrameId of `p`, PageNotFound if absent. -/
def BufferMap.get (m : BufferMap) (p : PageId) : Except Err Nat :=
  match m.entries.find? (fun e => e.1 = p) with
  | some e => .ok e.2
  | none => .error (.pageNotFound p)

/-- BufferMap::insert: PageAlreadyLoaded on a present key. -/
def BufferMap.insert (m : BufferMap) (p : PageId) (f : Nat) :
    Except Err BufferMap :=
  if m.contains p then .error (.pageAlreadyLoaded p)
  else .ok ⟨(p, f) :: m.entries⟩

/-- BufferMap::remove: PageNotFound on an absent key. -/
def BufferMap.remove (m : BufferMap) (p : PageId) : Except Err BufferMap :=
  if m.contains p then .ok ⟨m.entries.filter (fun e => ¬ e.1 = p)⟩
  else .error (.pageNotFound p)

/-! ## CLOCK replacement policy (src/bm_policies.cpp, Clock) -/

/-- State of the Clock policy: FIFO free list (head = queue front),
clock hand, per-frame reference bits, and the base-class statistics
counters (`rep_calls`, `new_page_calls` are uint64; the running average
is a C++ double modelled as a rational). -/
structure ClockState where
  free : List Nat
  clock_hand : Nat
  ref_table : List Bool
  rep_calls : Nat
  avg_frames_checked : Rat
  new_page_calls : Nat
deriving DecidableEq

/-- Clock::_advanceClock: clock_hand := (clock_hand + 1) % BUF_SIZE. -/
def advanceClock (bufSize : Nat) (st : ClockState) : ClockState :=
  { st with clock_hand := (st.clock_hand + 1) % bufSize }

/-- The statistics update Clock::replace performs when it selects a
victim: rep_calls++ (uint64), then
avg = (avg * (rep_calls - 1) + frames_checked) / (rep_calls + 1)
with the uint64 arithmetic of the source taken modulo 2^64. -/
def clockRecordStats (frames_checked : Nat) (st : ClockState) :
    ClockState :=
  let rc := (st.rep_calls + 1) % 2 ^ 64
  { st with
    rep_calls := rc,
    avg_frames_checked :=
      (st.avg_frames_checked * (((rc + (2 ^ 64 - 1)) % 2 ^ 64 : Nat) : Rat)
        + (frames_checked : Rat)) / ((((rc + 1) % 2 ^ 64 : Nat) : Rat) + 1) }

/-- The `while(true)` loop of Clock::replace, with fuel.  Mirrors the
source control flow exactly: a pinned frame advances the hand, counts a
checked frame and `continue`s (skipping the InsufficientSpace test); a
valid referenced frame has its ref bit cleared and the hand advanced; a
valid unreferenced frame is selected (stats updated, hand advanced past
it); the InsufficientSpace test at the bottom of the loop body is reached
only by the non-pinned paths that do not return. -/
def clockReplaceLoop (bufSize : Nat) (frames : List Frame) :
    Nat → ClockState → Nat → Option (ClockState × Except Err Nat)
  | 0, _, _ => none
  | fuel + 1, st, frames_checked =>
    let frame := frames.getD st.clock_hand resetFrame
    if frame.pin_count > 0 then
      clockReplaceLoop bufSize frames fuel (advanceClock bufSize st)
        (frames_checked + 1)
    else if frame.valid then
      if st.ref_table.getD st.clock_hand false then
        let st1 := advanceClock bufSize
          { st with ref_table := st.ref_table.set st.clock_hand false }
        if frames_checked ≥ bufSize then some (st1, .error .insufficientSpace)
        else clockReplaceLoop bufSize frames fuel st1 frames_checked
      else
        some (advanceClock bufSize (clockRecordStats frames_checked st),
          .ok st.clock_hand)
    else
      if frames_checked ≥ bufSize then some (st, .error .insufficientSpace)
      else clockReplaceLoop bufSize frames fuel st frames_checked

/-- Clock::replace: pop the free list front if non-empty, otherwise run
the clock sweep. -/
def clockReplace (bufSize fuel : Nat) (st : ClockState)
    (frames : List Frame) : Option (ClockState × Except Err Nat) :=
  match st.free with
  | f :: rest => some ({ st with free := rest }, .ok f)
  | [] => clockReplaceLoop bufSize frames fuel st 0

/-- Clock::unpin: set the ref bit of the frame. -/
def clockUnpin (f : Nat) (st : ClockState) : ClockState :=
  { st with ref_table := st.ref_table.set f true }

/-- Clock::freeFrame: push onto the free list, clear the ref bit. -/
def clockFreeFrame (f : Nat) (st : ClockState) : ClockState :=
  { st with free := st.free ++ [f], ref_table := st.ref_table.set f false }

/-- Clock constructor state: free list built by _createFree over the
all-invalid initial frame table (so frames 0..BUF_SIZE-1 in order), hand
0, all ref bits false, rep_calls 0, avg 0.  The Clock constructor does
not initialize the base-class field `new_page_calls`; its indeterminate
initial value is the parameter `npc0`. -/
def clockInit (bufSize npc0 : Nat) : ClockState :=
  ⟨List.range bufSize, 0, List.replicate bufSize false, 0, 0, npc0⟩

/-! ## RANDOM replacement policy (src/bm_policies.cpp, Random) -/

/-- State of the Random policy: free list, base statistics counters, and
per-frame selection counts. -/
structure RandomState where
  free : List Nat
  rep_calls : Nat
  avg_frames_checked : Rat
  new_page_calls : Nat
  times_chosen : List Nat
deriving DecidableEq

/-- Random constructor state. -/
def randomInit (bufSize : Nat) : RandomState :=
  ⟨List.range bufSize, 0, 0, 0, List.replicate bufSize 0⟩

/-- The random-draw loop of Random::replace:
`while (cur_frame->pin_count != 0 && c < BUF_SIZE/2) { c++; redraw; }`.
`rands i` is the i-th value returned by `std::rand()`; draws already
made use indices below `i`.  The loop is structurally bounded by `k`,
the remaining draw budget `BUF_SIZE/2 - c`, so that `k = 0` is exactly
the exit condition `¬ (c < BUF_SIZE/2)`; the counter `c` of the source
is threaded unchanged.  Returns the final `(c, rand_num)`. -/
def randLoop (bufSize : Nat) (rands : Nat → Nat) (frames : List Frame) :
    Nat → Nat → Nat → Nat → Nat × Nat
  | 0, c, rand_num, _ => (c, rand_num)
  | k + 1, c, rand_num, i =>
    if (frames.getD rand_num resetFrame).pin_count ≠ 0 then
      randLoop bufSize rands frames k (c + 1) (rands i % bufSize) (i + 1)
    else (c, rand_num)

/-- The statistics update of Random::replace on a successful selection:
the wrap-around check `if (rep_calls + 1 == 0) rep_calls = 0` (uint64),
avg = avg * rep_calls + probes, rep_calls++, avg /= rep_calls, and
times_chosen[sel]++. -/
def randomUpdateStats (st : RandomState) (probes sel : Nat) : RandomState :=
  let rc0 := if (st.rep_calls + 1) % 2 ^ 64 = 0 then 0 else st.rep_calls
  let avg1 := st.avg_frames_checked * (rc0 : Rat) + (probes : Rat)
  let rc1 := (rc0 + 1) % 2 ^ 64
  { st with
    rep_calls := rc1,
    avg_frames_checked := avg1 / (rc1 : Rat),
    times_chosen := st.times_chosen.set sel (st.times_chosen.getD sel 0 + 1) }

/-- Random::replace: pop the free list if non-empty; otherwise draw a
random frame, retry while pinned up to BUF_SIZE/2 times, and then test
`c == BUF_SIZE` to decide between the linear fallback scan (first frame
with pin_count 0, else InsufficientSpace) and returning the last drawn
frame.  This mirrors the source exactly, including the fallback test
against BUF_SIZE rather than the loop bound BUF_SIZE/2. -/
def randomReplace (bufSize : Nat) (rands : Nat → Nat) (st : RandomState)
    (frames : List Frame) : RandomState × Except Err Nat :=
  match st.free with
  | f :: rest => ({ st with free := rest }, .ok f)
  | [] =>
    let rand0 := rands 0 % bufSize
    let cr := randLoop bufSize rands frames (bufSize / 2) 0 rand0 1
    if cr.1 = bufSize then
      match (List.range bufSize).find?
          (fun i => (frames.getD i resetFrame).pin_count = 0) with
      | some i => (randomUpdateStats st (cr.1 + i) i, .ok i)
      | none => (st, .error .insufficientSpace)
    else
      (randomUpdateStats st (cr.1 + 1) cr.2, .ok cr.2)

/-! ## Replacement-policy interface and BufferManager state -/

/-- The narrow interface BufferManager uses from a ReplacementPolicy
(src/bm_replacement.h): replace / pin / unpin / freeFrame over an
abstract policy state `σ`.  `replace` may consult the frame table and
returns `none` when the policy's internal loop does not terminate within
its fuel. -/
structure Pol (σ : Type) where
  replace : σ → List Frame → Option (σ × Except Err Nat)
  pin : Nat → σ → σ
  unpin : Nat → σ → σ
  freeFrame : Nat → σ → σ

/-- The Clock policy packaged behind the interface. -/
def clockPol (bufSize fuel : Nat) : Pol ClockState :=
  { replace := fun st frames => clockReplace bufSize fuel st frames,
    pin := fun _ st => st,
    unpin := clockUnpin,
    freeFrame := clockFreeFrame }

/-- The Random policy packaged behind the interface (`rands` is the
stream of std::rand() values consumed by one call to replace). -/
def randomPol (bufSize : Nat) (rands : Nat → Nat) : Pol RandomState :=
  { replace := fun st frames => some (randomReplace bufSize rands st frames),
    pin := fun _ st => st,
    unpin := fun _ st => st,
    freeFrame := fun f st => { st with free := st.free ++ [f] } }

/-- ReplacementPolicy::incrementGetAllocCount (src/bm_replacement.cpp):
new_page_calls++.  Instantiated for the two concrete policy states. -/
def clockIncrementGetAllocCount (st : ClockState) : ClockState :=
  { st with new_page_calls := (st.new_page_calls + 1) % 2 ^ 64 }

/-- incrementGetAllocCount for the Random policy state. -/
def randomIncrementGetAllocCount (st : RandomState) : RandomState :=
  { st with new_page_calls := (st.new_page_calls + 1) % 2 ^ 64 }

/-- The replacement statistics snapshot getRepStats fills. -/
structure ReplacementStats where
  rep_calls : Nat
  avg_frames_checked : Rat
  new_page_calls : Nat
  ref_bit : Nat
  clock_hand : Nat
deriving DecidableEq

/-- Clock::getRepStats: counters, number of set ref bits, clock hand. -/
def clockGetRepStats (st : ClockState) : ReplacementStats :=
  ⟨st.rep_calls, st.avg_frames_checked, st.new_page_calls,
    (st.ref_table.filter (fun b => b)).length, st.clock_hand⟩

/-- ReplacementPolicy::getRepStats (used by Random): counters, ref_bit
and clock_hand reported as 0. -/
def randomGetRepStats (st : RandomState) : ReplacementStats :=
  ⟨st.rep_calls, st.avg_frames_checked, st.new_page_calls, 0, 0⟩

/-- BufferManager state: the frame table, the buffer map, the policy
state, plus logs of the disk-manager calls the claims inspect: `writes`
records the PageIds passed to disk writePage in order, `removed` the
FileIds passed to disk removeFile. -/
structure BMState (σ : Type) where
  frames : List Frame
  map : BufferMap
  pol : σ
  writes : List PageId
  removed : List Nat
deriving DecidableEq

/-- BufferManager constructor state: every frame reset, empty map,
policy state `p0`, empty disk logs. -/
def initBM (bufSize : Nat) {σ : Type} (p0 : σ) : BMState σ :=
  ⟨List.replicate bufSize resetFrame, ⟨[]⟩, p0, [], []⟩

/-- Number of frames with pin_count > 0, as counted by
BufferManager::getBufferState. -/
def countPinned (frames : List Frame) : Nat :=
  (frames.filter (fun f => f.pin_count > 0)).length

/-- The `unpinned` field of getBufferState: BUF_SIZE - pinned. -/
def numUnpinned (bufSize : Nat) (frames : List Frame) : Nat :=
  bufSize - countPinned frames

/-! ## BufferManager operations (src/bufmgr.cpp) -/

/-- BufferManager::_allocateFrame: ask the policy for a victim; if the
victim frame is valid remove its page from the map (a failing remove
propagates before any frame mutation, as in the source); reset the
frame's valid, dirty and pin_count fields (page_id is left as is).
No disk write-back happens here. -/
def _allocateFrame {σ : Type} (P : Pol σ) (s : BMState σ) :
    Option (BMState σ × Except Err Nat) :=
  match P.replace s.pol s.frames with
  | none => none
  | some (pol1, .error e) => some ({ s with pol := pol1 }, .error e)
  | some (pol1, .ok frame_id) =>
    let tmp := s.frames.getD frame_id resetFrame
    let frames1 := s.frames.set frame_id
      { tmp with valid := false, dirty := false, pin_count := 0 }
    if tmp.valid then
      match BufferMap.remove s.map tmp.page_id with
      | .error e => some ({ s with pol := pol1 }, .error e)
      | .ok map1 =>
        some ({ s with pol := pol1, map := map1, frames := frames1 },
          .ok frame_id)
    else
      some ({ s with pol := pol1, frames := frames1 }, .ok frame_id)

/-- BufferManager::allocatePage.  `allocRes` is the disk manager's
answer to allocatePage(file_id) (a fresh PageId or a disk error).
Precheck the unpinned count, obtain the disk page, acquire a frame via
_allocateFrame, populate it, insert into the map, notify the policy.
Returns the frame index standing for the returned Page*. -/
def allocatePage (bufSize : Nat) {σ : Type} (P : Pol σ)
    (allocRes : Except Err PageId) (s : BMState σ) :
    Option (BMState σ × Except Err (Nat × PageId)) :=
  if numUnpinned bufSize s.frames = 0 then
    some (s, .error .insufficientSpace)
  else
    match allocRes with
    | .error e => some (s, .error e)
    | .ok page_id =>
      match _allocateFrame P s with
      | none => none
      | some (s1, .error e) => some (s1, .error e)
      | some (s1, .ok frame_id) =>
        let fr := s1.frames.getD frame_id resetFrame
        let frames2 := s1.frames.set frame_id
          { fr with
            page_id := page_id, valid := true, pin_count := 1, dirty := false }
        match BufferMap.insert s1.map page_id frame_id with
        | .error e => some ({ s1 with frames := frames2 }, .error e)
        | .ok map2 =>
          let s2 : BMState σ :=
            { s1 with
              frames := frames2, map := map2, pol := P.pin frame_id s1.pol }
          some (s2, .ok (frame_id, page_id))

/-- The exception remapping of the getPage miss path: the disk-level
invalid-file-id and invalid-page-num errors are caught and rethrown as
InvalidPageIdBufMgr; every other disk error propagates unchanged. -/
def remapReadErr (e : Err) (p : PageId) : Err :=
  match e with
  | .invalidFileIdDisk => .invalidPageId p
  | .invalidPageNumDisk => .invalidPageId p
  | e0 => e0

/-- BufferManager::getPage.  `readRes` is the outcome of the disk
manager's readPage for this call (`none` = success).  On a hit the pin
count is incremented and the frame index returned with no capacity
check.  On a miss: capacity precheck, victim from the policy, write-back
of a valid dirty victim (logged in `writes`), removal of a valid
victim's map entry, then the read; the disk-level invalid-file-id /
invalid-page-num errors are remapped to InvalidPageIdBufMgr and leave
the partially-updated state behind, as in the source.  On success the
frame is populated, inserted and pinned. -/
def getPage (bufSize : Nat) {σ : Type} (P : Pol σ) (readRes : Option Err)
    (page_id : PageId) (s : BMState σ) :
    Option (BMState σ × Except Err Nat) :=
  if BufferMap.contains s.map page_id then
    match BufferMap.get s.map page_id with
    | .error e => some (s, .error e)
    | .ok tmp =>
      let frame := s.frames.getD tmp resetFrame
      let frames1 := s.frames.set tmp
        { frame with pin_count := frame.pin_count + 1 }
      some ({ s with frames := frames1 }, .ok tmp)
  else if numUnpinned bufSize s.frames = 0 then
    some (s, .error .insufficientSpace)
  else
    match P.replace s.pol s.frames with
    | none => none
    | some (pol1, .error e) => some ({ s with pol := pol1 }, .error e)
    | some (pol1, .ok tmp) =>
      let s1 : BMState σ := { s with pol := pol1 }
      let frame := s1.frames.getD tmp resetFrame
      let s2 : BMState σ :=
        if frame.valid && frame.dirty then
          { s1 with
            writes := s1.writes ++ [frame.page_id],
            frames := s1.frames.set tmp { frame with dirty := false } }
        else s1
      match (if frame.valid then BufferMap.remove s2.map frame.page_id
             else .ok s2.map : Except Err BufferMap) with
      | .error e => some (s2, .error e)
      | .ok map1 =>
        let s3 : BMState σ := { s2 with map := map1 }
        match readRes with
        | some e => some (s3, .error (remapReadErr e page_id))
        | none =>
          let fr2 := s3.frames.getD tmp resetFrame
          let frames4 := s3.frames.set tmp
            { fr2 with
              page_id := page_id, valid := true, pin_count := 1,
              dirty := false }
          match BufferMap.insert s3.map page_id tmp with
          | .error e => some ({ s3 with frames := frames4 }, .error e)
          | .ok map2 =>
            let s4 : BMState σ :=
              { s3 with
                frames := frames4, map := map2, pol := P.pin tmp pol1 }
            some (s4, .ok tmp)

/-- BufferManager::releasePage: PageNotFound if absent, PageNotPinned if
pin_count is 0, otherwise set dirty when the flag is set, decrement the
pin count and notify the policy via unpin when it reaches 0. -/
def releasePage {σ : Type} (P : Pol σ) (page_id : PageId) (dirty : Bool)
    (s : BMState σ) : BMState σ × Except Err Unit :=
  if ¬ BufferMap.contains s.map page_id then
    (s, .error (.pageNotFound page_id))
  else
    match BufferMap.get s.map page_id with
    | .error e => (s, .error e)
    | .ok tmp =>
      let frame := s.frames.getD tmp resetFrame
      if frame.pin_count = 0 then (s, .error (.pageNotPinned page_id))
      else
        let frame1 := { frame with
          dirty := if dirty then true else frame.dirty,
          pin_count := frame.pin_count - 1 }
        let s1 : BMState σ := { s with frames := s.frames.set tmp frame1 }
        if frame1.pin_count = 0 then
          ({ s1 with pol := P.unpin tmp s1.pol }, .ok ())
        else (s1, .ok ())

/-- BufferManager::setDirty: PageNotFound if absent, else set the dirty
bit. -/
def setDirty {σ : Type} (page_id : PageId) (s : BMState σ) :
    BMState σ × Except Err Unit :=
  if ¬ BufferMap.contains s.map page_id then
    (s, .error (.pageNotFound page_id))
  else
    match BufferMap.get s.map page_id with
    | .error e => (s, .error e)
    | .ok tmp =>
      let frame := s.frames.getD tmp resetFrame
      ({ s with frames := s.frames.set tmp { frame with dirty := true } },
        .ok ())

/-- BufferManager::flushPage: PageNotFound if absent; if dirty, write
back (logged) and clear the dirty bit. -/
def flushPage {σ : Type} (page_id : PageId) (s : BMState σ) :
    BMState σ × Except Err Unit :=
  if ¬ BufferMap.contains s.map page_id then
    (s, .error (.pageNotFound page_id))
  else
    match BufferMap.get s.map page_id with
    | .error e => (s, .error e)
    | .ok tmp =>
      let frame := s.frames.getD tmp resetFrame
      if frame.dirty then
        ({ s with
          writes := s.writes ++ [page_id],
          frames := s.frames.set tmp { frame with dirty := false } }, .ok ())
      else (s, .ok ())

/-- BufferManager::deallocatePage.  If resident: PagePinned when pinned,
otherwise clear the frame's valid / dirty / pin_count (page_id is left
as is), remove the map entry and notify the policy via freeFrame.  In
all non-throwing cases the disk manager's deallocatePage is then called;
its outcome is the oracle `dres`. -/
def deallocatePage {σ : Type} (P : Pol σ) (dres : Except Err Unit)
    (page_id : PageId) (s : BMState σ) : BMState σ × Except Err Unit :=
  if BufferMap.contains s.map page_id then
    match BufferMap.get s.map page_id with
    | .error e => (s, .error e)
    | .ok frame_id =>
      let frame := s.frames.getD frame_id resetFrame
      if frame.pin_count > 0 then (s, .error (.pagePinned page_id))
      else
        match BufferMap.remove s.map page_id with
        | .error e => (s, .error e)
        | .ok map1 =>
          ({ s with
            frames := s.frames.set frame_id
              { frame with valid := false, dirty := false, pin_count := 0 },
            map := map1,
            pol := P.freeFrame frame_id s.pol }, dres)
  else (s, dres)

/-- The frame scan of BufferManager::removeFile over the index list
`l`: a valid frame of the file that is pinned raises PagePinned with the
mutations made so far kept; an unpinned one is removed from the map,
cleared (valid / dirty / pin_count; page_id left as is) and handed to
the policy's freeFrame. -/
def removeFileLoop {σ : Type} (P : Pol σ) (file_id : Nat) :
    List Nat → BMState σ → BMState σ × Except Err Unit
  | [], s => (s, .ok ())
  | i :: rest, s =>
    let frame := s.frames.getD i resetFrame
    if frame.valid && frame.page_id.file_id = file_id then
      if frame.pin_count > 0 then (s, .error (.pagePinned frame.page_id))
      else
        match BufferMap.remove s.map frame.page_id with
        | .error e => (s, .error e)
        | .ok map1 =>
          removeFileLoop P file_id rest
            { s with
              map := map1,
              frames := s.frames.set i
                { frame with valid := false, dirty := false, pin_count := 0 },
              pol := P.freeFrame i s.pol }
    else removeFileLoop P file_id rest s

/-- BufferManager::removeFile: scan all frames in index order, then call
the disk manager's removeFile (logged in `removed`) when no pinned page
of the file was found. -/
def removeFile (bufSize : Nat) {σ : Type} (P : Pol σ) (file_id : Nat)
    (s : BMState σ) : BMState σ × Except Err Unit :=
  match removeFileLoop P file_id (List.range bufSize) s with
  | (s1, .ok _) => ({ s1 with removed := s1.removed ++ [file_id] }, .ok ())
  | (s1, .error e) => (s1, .error e)

deriving instance DecidableEq for Except

/-! ## Invariants (spec §3 M1–M3, §8, and the Frame invariant) -/

/-- Invariant M1: every map entry points at an in-range frame that is
valid and holds exactly that page. -/
def MapConsistent (frames : List Frame) (m : BufferMap) : Prop :=
  ∀ e ∈ m.entries, e.2 < frames.length ∧
    (frames.getD e.2 resetFrame).valid = true ∧
    (frames.getD e.2 resetFrame).page_id = e.1

/-- Invariant M2: every valid frame's page is in the map, mapped to that
frame's index. -/
def FramesInMap (frames : List Frame) (m : BufferMap) : Prop :=
  ∀ i < frames.length, (frames.getD i resetFrame).valid = true →
    BufferMap.get m (frames.getD i resetFrame).page_id = .ok i

/-- The frame invariant restricted to the fields the source actually
clears on invalidation: an invalid frame is unpinned and clean. -/
def InvalidFramesClean (frames : List Frame) : Prop :=
  ∀ f ∈ frames, f.valid = false → f.pin_count = 0 ∧ f.dirty = false

/-- The full frame invariant as the spec states it: an invalid frame
additionally has the sentinel page id. -/
def InvalidFramesReset (frames : List Frame) : Prop :=
  ∀ f ∈ frames, f.valid = false →
    f.page_id = INVALID_PAGE_ID ∧ f.pin_count = 0 ∧ f.dirty = false

instance (frames : List Frame) (m : BufferMap) :
    Decidable (MapConsistent frames m) :=
  List.decidableBAll _ m.entries

instance (frames : List Frame) : Decidable (InvalidFramesClean frames) :=
  List.decidableBAll _ frames

instance (frames : List Frame) : Decidable (InvalidFramesReset frames) :=
  List.decidableBAll _ frames

/-! ## Helper lemmas about lists and the buffer map -/

theorem getD_set_self {l : List Frame} {i : Nat} (a d : Frame)
    (h : i < l.length) : (l.set i a).getD i d = a := by
  simp [List.getD_eq_getElem?_getD, List.getElem?_set, h]

theorem getD_set_ne {l : List Frame} {i j : Nat} (a d : Frame)
    (h : ¬ i = j) : (l.set i a).getD j d = l.getD j d := by
  simp [List.getD_eq_getElem?_getD, List.getElem?_set_ne h]

/-- A frame read as valid is in range: the out-of-range default is the
reset frame, which is invalid. -/
theorem lt_length_of_getD_valid {frames : List Frame} {i : Nat}
    (h : (frames.getD i resetFrame).valid = true) : i < frames.length := by
  by_contra hn
  rw [List.getD_eq_default _ _ (Nat.le_of_not_lt hn)] at h
  simp [resetFrame] at h

theorem get_ok_mem {m : BufferMap} {p : PageId} {f : Nat}
    (h : BufferMap.get m p = .ok f) : (p, f) ∈ m.entries := by
  unfold BufferMap.get at h
  cases hf : m.entries.find? (fun e => e.1 = p) with
  | none => rw [hf] at h; cases h
  | some e =>
    rw [hf] at h
    have h2 : e.2 = f := by cases h; rfl
    have hp : e.1 = p := by simpa using List.find?_some hf
    have he : e ∈ m.entries := List.mem_of_find?_eq_some hf
    have : e = (p, f) := by
      cases e; simp at h2 hp; simp [h2, hp]
    rwa [this] at he

theorem contains_of_get_ok {m : BufferMap} {p : PageId} {f : Nat}
    (h : BufferMap.get m p = .ok f) : BufferMap.contains m p = true := by
  have hm := get_ok_mem h
  unfold BufferMap.contains
  rw [List.any_eq_true]
  exact ⟨(p, f), hm, by simp⟩

theorem get_ok_of_contains {m : BufferMap} {p : PageId}
    (h : BufferMap.contains m p = true) : ∃ f, BufferMap.get m p = .ok f := by
  unfold BufferMap.contains at h
  rw [List.any_eq_true] at h
  obtain ⟨e, he, hp⟩ := h
  have : (m.entries.find? (fun x => x.1 = p)).isSome = true := by
    rw [List.find?_isSome]; exact ⟨e, he, hp⟩
  cases hf : m.entries.find? (fun x => x.1 = p) with
  | none => rw [hf] at this; cases this
  | some x => exact ⟨x.2, by unfold BufferMap.get; rw [hf]⟩

theorem remove_ok_entries {m m1 : BufferMap} {p : PageId}
    (h : BufferMap.remove m p = .ok m1) :
    m1.entries = m.entries.filter (fun e => ¬ e.1 = p) := by
  unfold BufferMap.remove at h
  split at h
  · cases h; rfl
  · cases h

theorem insert_ok_entries {m m1 : BufferMap} {p : PageId} {f : Nat}
    (h : BufferMap.insert m p f = .ok m1) :
    m1.entries = (p, f) :: m.entries ∧ BufferMap.contains m p = false := by
  unfold BufferMap.insert at h
  by_cases hc : BufferMap.contains m p
  · rw [if_pos hc] at h; cases h
  · rw [if_neg hc] at h
    exact ⟨by cases h; rfl, by simpa using hc⟩

/-- M1 is stable under removing a key. -/
theorem mapConsistent_remove {frames : List Frame} {m m1 : BufferMap}
    {p : PageId} (hmc : MapConsistent frames m)
    (h : BufferMap.remove m p = .ok m1) : MapConsistent frames m1 := by
  intro e he
  rw [remove_ok_entries h] at he
  exact hmc e (List.mem_filter.mp he).1

/-- M1 is stable under overwriting a frame with one that has the same
valid bit and page id (pin count and dirty bit may change). -/
theorem mapConsistent_set_same_identity {frames : List Frame}
    {m : BufferMap} (hmc : MapConsistent frames m) (i : Nat) (x : Frame)
    (hval : x.valid = (frames.getD i resetFrame).valid)
    (hpid : x.page_id = (frames.getD i resetFrame).page_id) :
    MapConsistent (frames.set i x) m := by
  intro e he
  obtain ⟨hlt, hv, hp⟩ := hmc e he
  refine ⟨by simpa using hlt, ?_, ?_⟩
  · by_cases hie : i = e.2
    · subst hie
      rw [getD_set_self _ _ hlt, hval, hv]
    · rw [getD_set_ne _ _ hie]; exact hv
  · by_cases hie : i = e.2
    · subst hie
      rw [getD_set_self _ _ hlt, hpid, hp]
    · rw [getD_set_ne _ _ hie]; exact hp

/-- M1 is stable under clearing the dirty bit of a valid frame (the
write-back step of the getPage miss path). -/
theorem mapConsistent_set_clear_dirty_valid {frames : List Frame}
    {m : BufferMap} (hmc : MapConsistent frames m) (i : Nat)
    (hv : (frames.getD i resetFrame).valid = true) :
    MapConsistent (frames.set i
      ⟨(frames.getD i resetFrame).page_id,
        (frames.getD i resetFrame).pin_count, true, false⟩) m :=
  mapConsistent_set_same_identity hmc i
    ⟨(frames.getD i resetFrame).page_id,
      (frames.getD i resetFrame).pin_count, true, false⟩ hv.symm rfl

/-- A key contained after a removal was contained before. -/
theorem contains_of_remove_contains {m m1 : BufferMap} {p q : PageId}
    (h : BufferMap.remove m p = .ok m1)
    (hq : BufferMap.contains m1 q = true) : BufferMap.contains m q = true := by
  unfold BufferMap.contains at hq ⊢
  rw [List.any_eq_true] at hq ⊢
  obtain ⟨e, he, hp⟩ := hq
  rw [remove_ok_entries h] at he
  exact ⟨e, (List.mem_filter.mp he).1, hp⟩

/-! ## The CLOCK sweep on an all-pinned pool (claim C3) -/

/-- One step of the clock sweep on a fully pinned frame table recurses:
the pinned branch advances the hand, counts the frame and `continue`s,
so the InsufficientSpace test at the bottom of the loop body is never
reached and the loop consumes all fuel. -/
theorem clockReplaceLoop_all_pinned (bufSize : Nat) (frames : List Frame)
    (hall : ∀ f ∈ frames, 0 < f.pin_count) (hlen : frames.length = bufSize) :
    ∀ fuel (st : ClockState) (fc : Nat), st.clock_hand < bufSize →
      clockReplaceLoop bufSize frames fuel st fc = none := by
  intro fuel
  induction fuel with
  | zero => intro st fc _; rfl
  | succ n ih =>
    intro st fc hh
    have hlt : st.clock_hand < frames.length := by rw [hlen]; exact hh
    have hmem : frames.getD st.clock_hand resetFrame ∈ frames := by
      rw [List.getD_eq_getElem _ _ hlt]
      exact List.getElem_mem hlt
    have hpin : (frames.getD st.clock_hand resetFrame).pin_count > 0 :=
      hall _ hmem
    have hbuf : 0 < bufSize := Nat.lt_of_le_of_lt (Nat.zero_le _) hh
    have hstep : clockReplaceLoop bufSize frames (n + 1) st fc =
        clockReplaceLoop bufSize frames n (advanceClock bufSize st) (fc + 1) := by
      simp only [clockReplaceLoop]
      rw [if_pos hpin]
    rw [hstep]
    exact ih (advanceClock bufSize st) (fc + 1) (Nat.mod_lt _ hbuf)

/-- Claim C3.  The claim states that with an empty free list and every
frame pinned, Clock replace terminates by throwing
InsufficientSpaceBufMgr after at most a full sweep.  The source instead
never terminates: for every fuel bound the sweep is still running, i.e.
the modelled replace returns `none` for all fuel.  (In the pinned branch
the source `continue`s past the `frames_checked >= BUF_SIZE` test, so
the throw is unreachable.)  This theorem establishes the divergence that
refutes the claim's termination statement. -/
theorem clockReplace_all_pinned_diverges (bufSize fuel : Nat)
    (st : ClockState) (frames : List Frame) (hfree : st.free = [])
    (hlen : frames.length = bufSize) (hh : st.clock_hand < bufSize)
    (hall : ∀ f ∈ frames, 0 < f.pin_count) :
    clockReplace bufSize fuel st frames = none := by
  unfold clockReplace
  rw [hfree]
  exact clockReplaceLoop_all_pinned bufSize frames hall hlen fuel st 0 hh

/-- A fully pinned two-frame table. -/
def c3Frames : List Frame :=
  [⟨⟨1, 0⟩, 1, true, false⟩, ⟨⟨1, 1⟩, 1, true, false⟩]

/-- The Clock state with empty free list facing `c3Frames`. -/
def c3Clock : ClockState := ⟨[], 0, [false, false], 0, 0, 0⟩

/-- Witness for C3: the divergence theorem applied at a concrete
all-pinned pool and fuel 5. -/
theorem clockReplace_all_pinned_diverges_witness :
    clockReplace 2 5 c3Clock c3Frames = none :=
  clockReplace_all_pinned_diverges 2 5 c3Clock c3Frames rfl rfl
    (by decide) (by decide)

/-! ## RANDOM replace can return a pinned frame (claims C2, C5) -/

/-- Frame table with frame 0 unpinned and frames 1–3 pinned. -/
def c2Frames : List Frame :=
  [⟨⟨1, 0⟩, 0, true, false⟩, ⟨⟨1, 1⟩, 1, true, false⟩,
   ⟨⟨1, 2⟩, 1, true, false⟩, ⟨⟨1, 3⟩, 1, true, false⟩]

/-- A Random policy state whose free list is empty. -/
def c2Rand : RandomState := ⟨[], 0, 0, 0, [0, 0, 0, 0]⟩

/-- Claim C2.  The claim states that replace only returns frames with
pin_count 0.  Refuted for the RANDOM policy: with the free list empty,
an unpinned frame present (frame 0), and a rand() stream that keeps
drawing frame 1, the draw loop gives up after BUF_SIZE/2 = 2 retries and
the fallback test `c == BUF_SIZE` is false, so replace returns the last
drawn frame 1 — whose pin_count is 1, not 0. -/
theorem randomReplace_selects_pinned_frame :
    (randomReplace 4 (fun _ => 1) c2Rand c2Frames).2 = .ok 1 ∧
    (c2Frames.getD 1 resetFrame).pin_count = 1 ∧
    (c2Frames.getD 0 resetFrame).pin_count = 0 :=
  ⟨rfl, rfl, rfl⟩

/-- A fully pinned four-frame table. -/
def c5Frames : List Frame :=
  [⟨⟨2, 0⟩, 1, true, false⟩, ⟨⟨2, 1⟩, 1, true, false⟩,
   ⟨⟨2, 2⟩, 1, true, false⟩, ⟨⟨2, 3⟩, 1, true, false⟩]

/-- A Random policy state whose free list is empty, for `c5Frames`. -/
def c5Rand : RandomState := ⟨[], 0, 0, 0, [0, 0, 0, 0]⟩

/-- Claim C5.  The claim states that after the random draws fail, the
RANDOM policy scans the table linearly and, finding no unpinned frame,
fails with InsufficientSpaceBufMgr.  Refuted: on a fully pinned table
the draw loop stops at c = BUF_SIZE/2 = 2, the fallback test
`c == BUF_SIZE` (4) is false, and replace returns the pinned frame 0
instead of scanning or failing — the linear-scan branch is dead code. -/
theorem randomReplace_skips_linear_scan :
    (randomReplace 4 (fun _ => 0) c5Rand c5Frames).2 = .ok 0 ∧
    (∀ f ∈ c5Frames, 0 < f.pin_count) :=
  ⟨rfl, by decide⟩

/-! ## allocatePage eviction loses dirty data (claim C4) -/

/-- Pool state with no free frame: frame 0 unpinned, valid and dirty;
frame 1 pinned.  The Clock policy will evict frame 0. -/
def c4State : BMState ClockState :=
  ⟨[⟨⟨1, 0⟩, 0, true, true⟩, ⟨⟨1, 1⟩, 1, true, false⟩],
   ⟨[(⟨1, 0⟩, 0), (⟨1, 1⟩, 1)]⟩, ⟨[], 0, [false, false], 0, 0, 0⟩, [], []⟩

/-- Claim C4.  The claim (which the spec itself mandates against the
source) says an allocate-path eviction of a valid dirty frame writes the
page back before reuse.  In the source `_allocateFrame` clears the dirty
bit without any disk write: allocating over the dirty victim frame 0
succeeds, reuses the frame for page (1,5), and the write-back log stays
empty — the dirty bytes of page (1,0) are dropped. -/
theorem allocatePage_eviction_skips_writeback :
    ((allocatePage 2 (clockPol 2 4) (.ok ⟨1, 5⟩) c4State).map
      (fun r => (r.2, r.1.frames, r.1.map.entries, r.1.writes))) =
      some (.ok (0, ⟨1, 5⟩),
        [⟨⟨1, 5⟩, 1, true, false⟩, ⟨⟨1, 1⟩, 1, true, false⟩],
        [(⟨1, 5⟩, 0), (⟨1, 1⟩, 1)], []) ∧
    (c4State.frames.getD 0 resetFrame).valid = true ∧
    (c4State.frames.getD 0 resetFrame).dirty = true :=
  ⟨rfl, rfl, rfl⟩

/-! ## new_page_calls is never incremented (claim C9) -/

/-- Claim C9.  The claim states that each successful allocatePage (and
getPage miss) bumps `new_page_calls` via incrementGetAllocCount, so the
statistic equals the number of successes.  Refuted: the source never
calls incrementGetAllocCount, so after one successful allocatePage on a
fresh pool the statistic reported by getRepStats is still 0, not 1. -/
theorem allocatePage_success_keeps_new_page_calls_zero :
    ((allocatePage 2 (randomPol 2 (fun _ => 0)) (.ok ⟨1, 0⟩)
        (initBM 2 (randomInit 2))).map
      (fun r => (r.2, (randomGetRepStats r.1.pol).new_page_calls))) =
      some (.ok (0, ⟨1, 0⟩), 0) :=
  rfl

/-! ## releasePage semantics (claim C7) -/

/-- Claim C7.  releasePage fails with PageNotFound exactly when the page
is absent, fails with PageNotPinned exactly when it is resident with
pin_count 0 (both errors leaving the state unchanged); otherwise it ors
the dirty flag into the dirty bit (never clearing it), decrements
pin_count by exactly one, and notifies the policy via unpin exactly when
the pin count reaches 0.  The three cases are mutually exclusive and
exhaustive, which gives the claimed iff characterisation of the two
failure modes. -/
theorem releasePage_spec {σ : Type} (P : Pol σ) (page_id : PageId)
    (d : Bool) (s : BMState σ) :
    (BufferMap.contains s.map page_id = false →
      releasePage P page_id d s = (s, .error (.pageNotFound page_id))) ∧
    (∀ f, BufferMap.get s.map page_id = .ok f →
      (s.frames.getD f resetFrame).pin_count = 0 →
      releasePage P page_id d s = (s, .error (.pageNotPinned page_id))) ∧
    (∀ f, BufferMap.get s.map page_id = .ok f →
      0 < (s.frames.getD f resetFrame).pin_count →
      releasePage P page_id d s =
        ({ s with
            frames := s.frames.set f
              { s.frames.getD f resetFrame with
                dirty := if d then true else (s.frames.getD f resetFrame).dirty,
                pin_count := (s.frames.getD f resetFrame).pin_count - 1 },
            pol := if (s.frames.getD f resetFrame).pin_count - 1 = 0
              then P.unpin f s.pol else s.pol },
          .ok ())) := by
  refine ⟨?_, ?_, ?_⟩
  · intro h
    unfold releasePage
    rw [h]
    simp
  · intro f hget hpin
    unfold releasePage
    rw [contains_of_get_ok hget, hget]
    rw [List.getD_eq_getElem?_getD] at hpin
    simp [hpin]
  · intro f hget hpin
    have hnz : ¬ (s.frames.getD f resetFrame).pin_count = 0 :=
      Nat.pos_iff_ne_zero.mp hpin
    unfold releasePage
    rw [contains_of_get_ok hget, hget]
    rw [List.getD_eq_getElem?_getD] at hnz
    by_cases hz : (s.frames.getD f resetFrame).pin_count - 1 = 0 <;>
      rw [List.getD_eq_getElem?_getD] at hz <;>
      simp [hnz, hz]

/-- A one-frame pool holding page (3,0) with pin count 2. -/
def c7State : BMState ClockState :=
  ⟨[⟨⟨3, 0⟩, 2, true, false⟩], ⟨[(⟨3, 0⟩, 0)]⟩,
   ⟨[], 0, [false], 0, 0, 0⟩, [], []⟩

/-- Witness for C7: releasing page (3,0) with the dirty flag set on
`c7State` decrements the pin count 2 → 1, sets the dirty bit, and does
not notify the policy. -/
theorem releasePage_spec_witness :
    releasePage (clockPol 1 4) ⟨3, 0⟩ true c7State =
      ({ c7State with frames := [⟨⟨3, 0⟩, 1, true, true⟩] }, .ok ()) :=
  (releasePage_spec (clockPol 1 4) ⟨3, 0⟩ true c7State).2.2 0 rfl (by decide)

/-! ## getPage hit path (claim C8) -/

/-- The state left by a getPage hit on frame `f`: only that frame's pin
count is incremented. -/
def hitState {σ : Type} (s : BMState σ) (f : Nat) : BMState σ :=
  let fr := s.frames.getD f resetFrame
  { s with frames := s.frames.set f { fr with pin_count := fr.pin_count + 1 } }

/-- A getPage on a resident page takes the hit path: no capacity check,
no policy call, pin count incremented, frame index returned. -/
theorem getPage_hit_eq (bufSize : Nat) {σ : Type} (P : Pol σ)
    (rr : Option Err) (page_id : PageId) (s : BMState σ) (f : Nat)
    (hget : BufferMap.get s.map page_id = .ok f) :
    getPage bufSize P rr page_id s = some (hitState s f, .ok f) := by
  unfold getPage hitState
  rw [contains_of_get_ok hget, hget]
  simp

/-- Claim C8.  While a page stays resident at frame `f`, consecutive
getPage calls both return the same buffer-pool slot `f` (the model of
the returned Page*), leave the map unchanged, and each increments that
frame's pin count by exactly one — with no hypothesis about how many
frames are pinned. -/
theorem getPage_hit_same_frame (bufSize : Nat) {σ : Type} (P : Pol σ)
    (r1 r2 : Option Err) (page_id : PageId) (s : BMState σ) (f : Nat)
    (hget : BufferMap.get s.map page_id = .ok f)
    (hlt : f < s.frames.length) :
    getPage bufSize P r1 page_id s = some (hitState s f, .ok f) ∧
    getPage bufSize P r2 page_id (hitState s f) =
      some (hitState (hitState s f) f, .ok f) ∧
    (hitState s f).map = s.map ∧
    (hitState (hitState s f) f).map = s.map ∧
    ((hitState s f).frames.getD f resetFrame).pin_count =
      (s.frames.getD f resetFrame).pin_count + 1 ∧
    ((hitState (hitState s f) f).frames.getD f resetFrame).pin_count =
      (s.frames.getD f resetFrame).pin_count + 2 := by
  have h1 : (hitState s f).map = s.map := rfl
  have hget1 : BufferMap.get (hitState s f).map page_id = .ok f := hget
  have hpin1 : ((hitState s f).frames.getD f resetFrame).pin_count =
      (s.frames.getD f resetFrame).pin_count + 1 := by
    unfold hitState
    rw [getD_set_self _ _ hlt]
  have hlt1 : f < (hitState s f).frames.length := by
    unfold hitState
    rw [List.length_set]
    exact hlt
  refine ⟨getPage_hit_eq bufSize P r1 page_id s f hget,
    getPage_hit_eq bufSize P r2 page_id (hitState s f) f hget1, h1, rfl,
    hpin1, ?_⟩
  have hpin2 : ((hitState (hitState s f) f).frames.getD f resetFrame).pin_count =
      ((hitState s f).frames.getD f resetFrame).pin_count + 1 := by
    unfold hitState
    rw [getD_set_self _ _ (by rw [List.length_set]; exact hlt)]
  rw [hpin2, hpin1]

/-- A two-frame pool with page (4,0) resident at frame 1, pinned 3. -/
def c8State : BMState ClockState :=
  ⟨[resetFrame, ⟨⟨4, 0⟩, 3, true, false⟩], ⟨[(⟨4, 0⟩, 1)]⟩,
   ⟨[0], 0, [false, false], 0, 0, 0⟩, [], []⟩

/-- Witness for C8: two consecutive getPage calls on resident page (4,0)
both return frame 1 and raise its pin count 3 → 4 → 5. -/
theorem getPage_hit_same_frame_witness :
    getPage 2 (clockPol 2 4) none ⟨4, 0⟩ c8State =
      some (hitState c8State 1, .ok 1) ∧
    getPage 2 (clockPol 2 4) none ⟨4, 0⟩ (hitState c8State 1) =
      some (hitState (hitState c8State 1) 1, .ok 1) ∧
    (hitState c8State 1).map = c8State.map ∧
    (hitState (hitState c8State 1) 1).map = c8State.map ∧
    ((hitState c8State 1).frames.getD 1 resetFrame).pin_count =
      (c8State.frames.getD 1 resetFrame).pin_count + 1 ∧
    ((hitState (hitState c8State 1) 1).frames.getD 1 resetFrame).pin_count =
      (c8State.frames.getD 1 resetFrame).pin_count + 2 :=
  getPage_hit_same_frame 2 (clockPol 2 4) none none ⟨4, 0⟩ c8State 1 rfl
    (by decide)

/-! ## Failed getPage and the map invariants (claim C1) -/

theorem insert_error_contains {m : BufferMap} {p : PageId} {f : Nat}
    {e : Err} (h : BufferMap.insert m p f = .error e) :
    BufferMap.contains m p = true := by
  unfold BufferMap.insert at h
  by_cases hc : BufferMap.contains m p
  · exact hc
  · rw [if_neg hc] at h; cases h

/-- Claim C1, amended: after a getPage(p) call on a non-resident page
fails (in particular when the disk read fails and is remapped to
InvalidPageIdBufMgr), invariants M1 and M3 still hold in the state left
behind.  (M2 — the part of the claim refuted by the counterexample — is
not preserved: a valid victim keeps valid == true while its map entry is
already gone.)  Proven for an arbitrary policy. -/
theorem getPage_fail_preserves_M1_M3 (bufSize : Nat) {σ : Type}
    (P : Pol σ) (readRes : Option Err) (page_id : PageId)
    (s s1 : BMState σ) (e : Err)
    (hmc : MapConsistent s.frames s.map)
    (hm3 : s.map.entries.length ≤ bufSize)
    (h : getPage bufSize P readRes page_id s = some (s1, .error e)) :
    MapConsistent s1.frames s1.map ∧ s1.map.entries.length ≤ bufSize := by
  unfold getPage at h
  by_cases hc : BufferMap.contains s.map page_id = true
  · rw [if_pos hc] at h
    cases hg : BufferMap.get s.map page_id with
    | error e1 =>
      rw [hg] at h
      simp only [Option.some.injEq, Prod.mk.injEq] at h
      obtain ⟨h1, _⟩ := h
      subst h1
      exact ⟨hmc, hm3⟩
    | ok tmp =>
      rw [hg] at h
      simp at h
  · rw [if_neg hc] at h
    by_cases hz : numUnpinned bufSize s.frames = 0
    · rw [if_pos hz] at h
      simp only [Option.some.injEq, Prod.mk.injEq] at h
      obtain ⟨h1, _⟩ := h
      subst h1
      exact ⟨hmc, hm3⟩
    · rw [if_neg hz] at h
      cases hrep : P.replace s.pol s.frames with
      | none => rw [hrep] at h; cases h
      | some pr =>
        obtain ⟨pol1, r⟩ := pr
        cases r with
        | error e1 =>
          rw [hrep] at h
          simp only [Option.some.injEq, Prod.mk.injEq] at h
          obtain ⟨h1, _⟩ := h
          subst h1
          exact ⟨hmc, hm3⟩
        | ok tmp =>
          rw [hrep] at h
          simp only at h
          cases hvB : (s.frames.getD tmp resetFrame).valid with
          | false =>
            rw [hvB] at h
            simp only [Bool.false_and, Bool.false_eq_true, if_false] at h
            cases readRes with
            | some e0 =>
              simp only [Option.some.injEq, Prod.mk.injEq] at h
              obtain ⟨h1, _⟩ := h
              subst h1
              exact ⟨hmc, hm3⟩
            | none =>
              cases hins : BufferMap.insert s.map page_id tmp with
              | error e1 =>
                exact absurd (insert_error_contains hins) hc
              | ok map2 => simp [hins] at h
          | true =>
            rw [hvB] at h
            cases hdB : (s.frames.getD tmp resetFrame).dirty with
            | false =>
              rw [hdB] at h
              simp only [Bool.and_false, Bool.false_eq_true, if_false,
                eq_self_iff_true, if_true] at h
              cases hrem : BufferMap.remove s.map
                  (s.frames.getD tmp resetFrame).page_id with
              | error e1 =>
                rw [hrem] at h
                simp only [Option.some.injEq, Prod.mk.injEq] at h
                obtain ⟨h1, _⟩ := h
                subst h1
                exact ⟨hmc, hm3⟩
              | ok map1 =>
                rw [hrem] at h
                have hmcr : MapConsistent s.frames map1 :=
                  mapConsistent_remove hmc hrem
                have hlen1 : map1.entries.length ≤ bufSize := by
                  rw [remove_ok_entries hrem]
                  exact le_trans (List.length_filter_le _ _) hm3
                cases readRes with
                | some e0 =>
                  simp only [Option.some.injEq, Prod.mk.injEq] at h
                  obtain ⟨h1, _⟩ := h
                  subst h1
                  exact ⟨hmcr, hlen1⟩
                | none =>
                  cases hins : BufferMap.insert map1 page_id tmp with
                  | error e1 =>
                    exact absurd (contains_of_remove_contains hrem
                      (insert_error_contains hins)) hc
                  | ok map2 => simp [hins] at h
            | true =>
              rw [hdB] at h
              simp only [Bool.and_self, eq_self_iff_true, if_true] at h
              cases hrem : BufferMap.remove s.map
                  (s.frames.getD tmp resetFrame).page_id with
              | error e1 =>
                rw [hrem] at h
                simp only [Option.some.injEq, Prod.mk.injEq] at h
                obtain ⟨h1, _⟩ := h
                subst h1
                exact ⟨mapConsistent_set_clear_dirty_valid hmc tmp hvB, hm3⟩
              | ok map1 =>
                rw [hrem] at h
                have hmcr := mapConsistent_remove
                  (mapConsistent_set_clear_dirty_valid hmc tmp hvB) hrem
                have hlen1 : map1.entries.length ≤ bufSize := by
                  rw [remove_ok_entries hrem]
                  exact le_trans (List.length_filter_le _ _) hm3
                cases readRes with
                | some e0 =>
                  simp only [Option.some.injEq, Prod.mk.injEq] at h
                  obtain ⟨h1, _⟩ := h
                  subst h1
                  exact ⟨hmcr, hlen1⟩
                | none =>
                  cases hins : BufferMap.insert map1 page_id tmp with
                  | error e1 =>
                    exact absurd (contains_of_remove_contains hrem
                      (insert_error_contains hins)) hc
                  | ok map2 => simp [hins] at h

instance (frames : List Frame) (m : BufferMap) :
    Decidable (FramesInMap frames m) := by
  unfold FramesInMap
  infer_instance

/-- Pool with no free frame: frame 0 holds page (1,0) unpinned and
clean (the Clock victim), frame 1 holds page (1,1) pinned. -/
def c1State : BMState ClockState :=
  ⟨[⟨⟨1, 0⟩, 0, true, false⟩, ⟨⟨1, 1⟩, 1, true, false⟩],
   ⟨[(⟨1, 0⟩, 0), (⟨1, 1⟩, 1)]⟩, ⟨[], 0, [false, false], 0, 0, 0⟩, [], []⟩

/-- Claim C1, counterexample.  getPage on the absent page (1,2) whose
disk read fails with InvalidPageNum (remapped to InvalidPageIdBufMgr)
leaves the victim frame 0 with valid == true while its page (1,0) has
already been removed from the map: M2 — the "in particular" part of the
claim — is violated in the post-error state, even though it held in the
pre state. -/
theorem getPage_read_error_violates_M2 :
    ((getPage 2 (clockPol 2 4) (some .invalidPageNumDisk) ⟨1, 2⟩
        c1State).map
      (fun r => (r.2, r.1.frames, r.1.map.entries))) =
      some (.error (.invalidPageId ⟨1, 2⟩),
        [⟨⟨1, 0⟩, 0, true, false⟩, ⟨⟨1, 1⟩, 1, true, false⟩],
        [(⟨1, 1⟩, 1)]) ∧
    MapConsistent c1State.frames c1State.map ∧
    FramesInMap c1State.frames c1State.map ∧
    ¬ FramesInMap [⟨⟨1, 0⟩, 0, true, false⟩, ⟨⟨1, 1⟩, 1, true, false⟩]
      ⟨[(⟨1, 1⟩, 1)]⟩ :=
  ⟨rfl, by decide, by decide, by decide⟩

/-- Pool with a free frame 0 and page (1,1) resident unpinned at frame
1; used to witness the amended C1 theorem. -/
def c1wState : BMState ClockState :=
  ⟨[resetFrame, ⟨⟨1, 1⟩, 0, true, false⟩], ⟨[(⟨1, 1⟩, 1)]⟩,
   ⟨[0], 0, [false, false], 0, 0, 0⟩, [], []⟩

/-- The state `c1wState` is left in by a getPage miss whose disk read
fails with DiskError: the free victim was popped, nothing else moved. -/
def c1wPost : BMState ClockState :=
  ⟨[resetFrame, ⟨⟨1, 1⟩, 0, true, false⟩], ⟨[(⟨1, 1⟩, 1)]⟩,
   ⟨[], 0, [false, false], 0, 0, 0⟩, [], []⟩

/-- Witness for C1 (amended): the preservation theorem applied to a
concrete failing getPage, yielding M1 and M3 for the post state. -/
theorem getPage_fail_preserves_M1_M3_witness :
    MapConsistent c1wPost.frames c1wPost.map ∧
      c1wPost.map.entries.length ≤ 2 :=
  getPage_fail_preserves_M1_M3 2 (clockPol 2 4) (some .diskError) ⟨1, 2⟩
    c1wState c1wPost .diskError (by decide) (by decide) rfl

/-! ## removeFile failure is not atomic (claim C10) -/

theorem pair_eq {α β : Type} {a a1 : α} {b b1 : β}
    (h : (a, b) = (a1, b1)) : a = a1 ∧ b = b1 := by
  cases h; exact ⟨rfl, rfl⟩

theorem remove_error_eq {m : BufferMap} {p : PageId} {e : Err}
    (h : BufferMap.remove m p = .error e) : e = .pageNotFound p := by
  unfold BufferMap.remove at h
  by_cases hc : BufferMap.contains m p
  · rw [if_pos hc] at h; cases h
  · rw [if_neg hc] at h; cases h; rfl

theorem remove_ok_not_contains {m m1 : BufferMap} {p : PageId}
    (h : BufferMap.remove m p = .ok m1) :
    BufferMap.contains m1 p = false := by
  rw [BufferMap.contains, remove_ok_entries h]
  by_contra hb
  rw [Bool.not_eq_false, List.any_eq_true] at hb
  obtain ⟨e, he, hp⟩ := hb
  have := (List.mem_filter.mp he).2
  simp at hp this
  exact this hp

/-- The removeFile scan leaves frames at indices outside the scanned
list untouched. -/
theorem removeFileLoop_frames_outside {σ : Type} (P : Pol σ) (fid : Nat) :
    ∀ (l : List Nat) (s s1 : BMState σ) (r : Except Err Unit),
      removeFileLoop P fid l s = (s1, r) → ∀ i, i ∉ l →
      s1.frames.getD i resetFrame = s.frames.getD i resetFrame := by
  intro l
  induction l with
  | nil =>
    intro s s1 r h i _
    obtain ⟨h1, _⟩ := pair_eq h
    rw [← h1]
  | cons a rest ih =>
    intro s s1 r h i hi
    have hia : ¬ i = a := fun he => hi (he ▸ List.mem_cons_self a rest)
    have hirest : i ∉ rest := fun he => hi (List.mem_cons_of_mem a he)
    unfold removeFileLoop at h
    by_cases hm : ((s.frames.getD a resetFrame).valid &&
        (s.frames.getD a resetFrame).page_id.file_id = fid) = true
    · rw [if_pos hm] at h
      by_cases hp : (s.frames.getD a resetFrame).pin_count > 0
      · rw [if_pos hp] at h
        obtain ⟨h1, _⟩ := pair_eq h
        rw [← h1]
      · rw [if_neg hp] at h
        cases hrem : BufferMap.remove s.map
            (s.frames.getD a resetFrame).page_id with
        | error e1 =>
          rw [hrem] at h
          obtain ⟨h1, _⟩ := pair_eq h
          rw [← h1]
        | ok map1 =>
          rw [hrem] at h
          rw [ih _ _ _ h i hirest]
          exact getD_set_ne _ _ (fun he => hia he.symm)
    · rw [if_neg hm] at h
      exact ih _ _ _ h i hirest

/-- The removeFile scan never makes a page resident: a key absent from
the map stays absent. -/
theorem removeFileLoop_contains_mono {σ : Type} (P : Pol σ) (fid : Nat) :
    ∀ (l : List Nat) (s s1 : BMState σ) (r : Except Err Unit),
      removeFileLoop P fid l s = (s1, r) → ∀ p : PageId,
      BufferMap.contains s.map p = false →
      BufferMap.contains s1.map p = false := by
  intro l
  induction l with
  | nil =>
    intro s s1 r h p hp
    obtain ⟨h1, _⟩ := pair_eq h
    rw [← h1]
    exact hp
  | cons a rest ih =>
    intro s s1 r h p hp
    unfold removeFileLoop at h
    by_cases hm : ((s.frames.getD a resetFrame).valid &&
        (s.frames.getD a resetFrame).page_id.file_id = fid) = true
    · rw [if_pos hm] at h
      by_cases hpin : (s.frames.getD a resetFrame).pin_count > 0
      · rw [if_pos hpin] at h
        obtain ⟨h1, _⟩ := pair_eq h
        rw [← h1]
        exact hp
      · rw [if_neg hpin] at h
        cases hrem : BufferMap.remove s.map
            (s.frames.getD a resetFrame).page_id with
        | error e1 =>
          rw [hrem] at h
          obtain ⟨h1, _⟩ := pair_eq h
          rw [← h1]
          exact hp
        | ok map1 =>
          rw [hrem] at h
          refine ih _ _ _ h p ?_
          by_contra hb
          rw [Bool.not_eq_false] at hb
          have := contains_of_remove_contains hrem hb
          rw [hp] at this
          cases this
    · rw [if_neg hm] at h
      exact ih _ _ _ h p hp

/-- Under the Clock policy, the removeFile scan only appends to the
policy free list. -/
theorem removeFileLoop_free_mono (bufSize fuel : Nat) (fid : Nat) :
    ∀ (l : List Nat) (s s1 : BMState ClockState) (r : Except Err Unit),
      removeFileLoop (clockPol bufSize fuel) fid l s = (s1, r) →
      ∀ i, i ∈ s.pol.free → i ∈ s1.pol.free := by
  intro l
  induction l with
  | nil =>
    intro s s1 r h i hi
    obtain ⟨h1, _⟩ := pair_eq h
    rw [← h1]
    exact hi
  | cons a rest ih =>
    intro s s1 r h i hi
    unfold removeFileLoop at h
    by_cases hm : ((s.frames.getD a resetFrame).valid &&
        (s.frames.getD a resetFrame).page_id.file_id = fid) = true
    · rw [if_pos hm] at h
      by_cases hpin : (s.frames.getD a resetFrame).pin_count > 0
      · rw [if_pos hpin] at h
        obtain ⟨h1, _⟩ := pair_eq h
        rw [← h1]
        exact hi
      · rw [if_neg hpin] at h
        cases hrem : BufferMap.remove s.map
            (s.frames.getD a resetFrame).page_id with
        | error e1 =>
          rw [hrem] at h
          obtain ⟨h1, _⟩ := pair_eq h
          rw [← h1]
          exact hi
        | ok map1 =>
          rw [hrem] at h
          exact ih _ _ _ h i (List.mem_append_left _ hi)
    · rw [if_neg hm] at h
      exact ih _ _ _ h i hi

/-- The removeFile scan never calls the disk manager: the removeFile log
is unchanged by the loop. -/
theorem removeFileLoop_removed {σ : Type} (P : Pol σ) (fid : Nat) :
    ∀ (l : List Nat) (s s1 : BMState σ) (r : Except Err Unit),
      removeFileLoop P fid l s = (s1, r) → s1.removed = s.removed := by
  intro l
  induction l with
  | nil =>
    intro s s1 r h
    obtain ⟨h1, _⟩ := pair_eq h
    rw [← h1]
  | cons a rest ih =>
    intro s s1 r h
    unfold removeFileLoop at h
    by_cases hm : ((s.frames.getD a resetFrame).valid &&
        (s.frames.getD a resetFrame).page_id.file_id = fid) = true
    · rw [if_pos hm] at h
      by_cases hpin : (s.frames.getD a resetFrame).pin_count > 0
      · rw [if_pos hpin] at h
        obtain ⟨h1, _⟩ := pair_eq h
        rw [← h1]
      · rw [if_neg hpin] at h
        cases hrem : BufferMap.remove s.map
            (s.frames.getD a resetFrame).page_id with
        | error e1 =>
          rw [hrem] at h
          obtain ⟨h1, _⟩ := pair_eq h
          rw [← h1]
        | ok map1 =>
          rw [hrem] at h
          have h2 := ih _ _ _ h
          exact h2
    · rw [if_neg hm] at h
      exact ih _ _ _ h

/-- Core of claim C10: if the scan over a strictly increasing index list
fails with PagePinned, the failing index is the first pinned resident
page of the file in the list, every earlier matching frame has already
been reset, removed from the map and pushed onto the Clock free list,
and those mutations persist in the returned state. -/
theorem removeFileLoop_pagePinned_partial (bufSize fuel fid : Nat) :
    ∀ l : List Nat, l.Pairwise (· < ·) →
    ∀ (s s1 : BMState ClockState) (q : PageId),
      removeFileLoop (clockPol bufSize fuel) fid l s =
        (s1, .error (.pagePinned q)) →
      ∃ j ∈ l,
        (s.frames.getD j resetFrame).valid = true ∧
        (s.frames.getD j resetFrame).page_id.file_id = fid ∧
        0 < (s.frames.getD j resetFrame).pin_count ∧
        q = (s.frames.getD j resetFrame).page_id ∧
        ∀ i ∈ l, i < j →
          (s.frames.getD i resetFrame).valid = true →
          (s.frames.getD i resetFrame).page_id.file_id = fid →
          (s.frames.getD i resetFrame).pin_count = 0 ∧
          s1.frames.getD i resetFrame =
            { s.frames.getD i resetFrame with
              valid := false, dirty := false, pin_count := 0 } ∧
          BufferMap.contains s1.map
            (s.frames.getD i resetFrame).page_id = false ∧
          i ∈ s1.pol.free := by
  intro l
  induction l with
  | nil =>
    intro _ s s1 q h
    obtain ⟨_, h2⟩ := pair_eq h
    cases h2
  | cons a rest ih =>
    intro hsort s s1 q h
    rw [List.pairwise_cons] at hsort
    obtain ⟨ha, hsort1⟩ := hsort
    unfold removeFileLoop at h
    by_cases hm : ((s.frames.getD a resetFrame).valid &&
        (s.frames.getD a resetFrame).page_id.file_id = fid) = true
    · rw [Bool.and_eq_true] at hm
      obtain ⟨hmv, hmf⟩ := hm
      rw [if_pos (by rw [Bool.and_eq_true]; exact ⟨hmv, hmf⟩)] at h
      by_cases hpin : (s.frames.getD a resetFrame).pin_count > 0
      · -- the scan fails right here, at the head.
        rw [if_pos hpin] at h
        obtain ⟨h1, h2⟩ := pair_eq h
        injection h2 with h3
        injection h3 with h4
        refine ⟨a, List.mem_cons_self a rest, hmv, by simpa using hmf,
          hpin, h4.symm, ?_⟩
        intro i hi hij _ _
        exfalso
        cases List.mem_cons.mp hi with
        | inl hia => rw [hia] at hij; exact Nat.lt_irrefl a hij
        | inr hir => exact Nat.lt_asymm (ha i hir) hij
      · -- the head frame matches, is unpinned, and is reclaimed.
        rw [if_neg hpin] at h
        cases hrem : BufferMap.remove s.map
            (s.frames.getD a resetFrame).page_id with
        | error e1 =>
          rw [hrem] at h
          obtain ⟨_, h2⟩ := pair_eq h
          rw [remove_error_eq hrem] at h2
          injection h2 with h3
          simp at h3
        | ok map1 =>
          rw [hrem] at h
          have hred := ih hsort1 _ s1 q h
          obtain ⟨j, hj, hjv, hjf, hjp, hjq, hall⟩ := hred
          have haj : a < j := ha j hj
          have hji : ¬ a = j := Nat.ne_of_lt haj
          have hsame : ∀ k, k ∈ rest → ∀ d : Frame,
              ((s.frames.set a
                { s.frames.getD a resetFrame with
                  valid := false, dirty := false,
                  pin_count := 0 }).getD k d) = s.frames.getD k d := by
            intro k hk d
            exact getD_set_ne _ _ (Nat.ne_of_lt (ha k hk))
          rw [hsame j hj resetFrame] at hjv hjf hjp hjq
          refine ⟨j, List.mem_cons_of_mem a hj, hjv, hjf, hjp, hjq, ?_⟩
          intro i hi hij hiv hif
          cases List.mem_cons.mp hi with
          | inl hia =>
            -- i = a: the head frame, already reclaimed before the error.
            subst hia
            have hlt : i < s.frames.length := lt_length_of_getD_valid hmv
            refine ⟨Nat.eq_zero_of_not_pos hpin, ?_, ?_, ?_⟩
            · rw [removeFileLoop_frames_outside _ _ _ _ _ _ h i
                (fun hc => Nat.lt_irrefl i (ha i hc))]
              exact getD_set_self _ _ hlt
            · exact removeFileLoop_contains_mono _ _ _ _ _ _ h _
                (remove_ok_not_contains hrem)
            · refine removeFileLoop_free_mono bufSize fuel fid _ _ _ _ h i ?_
              exact List.mem_append_right _ (List.mem_singleton_self i)
          | inr hir =>
            have hres := hall i hir hij
              (by rw [hsame i hir resetFrame]; exact hiv)
              (by rw [hsame i hir resetFrame]; exact hif)
            rw [hsame i hir resetFrame] at hres
            exact hres
    · rw [if_neg hm] at h
      have hred := ih hsort1 s s1 q h
      obtain ⟨j, hj, hjv, hjf, hjp, hjq, hall⟩ := hred
      refine ⟨j, List.mem_cons_of_mem a hj, hjv, hjf, hjp, hjq, ?_⟩
      intro i hi hij hiv hif
      cases List.mem_cons.mp hi with
      | inl hia =>
        exfalso
        subst hia
        exact hm (by rw [Bool.and_eq_true]; exact ⟨hiv, decide_eq_true hif⟩)
      | inr hir => exact hall i hir hij hiv hif

/-- Claim C10.  When removeFile(file_id) fails with PagePinnedBufMgr, it
does so on the first pinned resident page of the file in frame-index
order; every valid frame of the file at a smaller index has already been
reset (valid/dirty/pin_count cleared), removed from the map, and pushed
onto the policy free list, those mutations persist in the error state,
and the disk manager's removeFile is never invoked: the operation is not
atomic on failure. -/
theorem removeFile_pagePinned_partial (bufSize fuel fid : Nat)
    (s s1 : BMState ClockState) (q : PageId)
    (h : removeFile bufSize (clockPol bufSize fuel) fid s =
      (s1, .error (.pagePinned q))) :
    s1.removed = s.removed ∧
    ∃ j < bufSize,
      (s.frames.getD j resetFrame).valid = true ∧
      (s.frames.getD j resetFrame).page_id.file_id = fid ∧
      0 < (s.frames.getD j resetFrame).pin_count ∧
      q = (s.frames.getD j resetFrame).page_id ∧
      ∀ i < j,
        (s.frames.getD i resetFrame).valid = true →
        (s.frames.getD i resetFrame).page_id.file_id = fid →
        (s.frames.getD i resetFrame).pin_count = 0 ∧
        s1.frames.getD i resetFrame =
          { s.frames.getD i resetFrame with
            valid := false, dirty := false, pin_count := 0 } ∧
        BufferMap.contains s1.map
          (s.frames.getD i resetFrame).page_id = false ∧
        i ∈ s1.pol.free := by
  unfold removeFile at h
  cases hloop : removeFileLoop (clockPol bufSize fuel) fid
      (List.range bufSize) s with
  | mk s2 r2 =>
    rw [hloop] at h
    cases r2 with
    | ok u =>
      obtain ⟨_, h2⟩ := pair_eq h
      cases h2
    | error e2 =>
      obtain ⟨h1, h2⟩ := pair_eq h
      injection h2 with h3
      subst h1 h3
      obtain ⟨j, hj, hjv, hjf, hjp, hjq, hall⟩ :=
        removeFileLoop_pagePinned_partial bufSize fuel fid
          (List.range bufSize) (List.pairwise_lt_range bufSize) s _ q hloop
      have hjb : j < bufSize := List.mem_range.mp hj
      refine ⟨removeFileLoop_removed _ _ _ _ _ _ hloop, j, hjb,
        hjv, hjf, hjp, hjq, ?_⟩
      intro i hij hiv hif
      exact hall i (List.mem_range.mpr (Nat.lt_trans hij hjb)) hij hiv hif

/-- A pool where removeFile(7) must fail: frame 0 holds the unpinned
dirty page (7,0), frame 1 the pinned page (7,1). -/
def c10State : BMState ClockState :=
  ⟨[⟨⟨7, 0⟩, 0, true, true⟩, ⟨⟨7, 1⟩, 2, true, false⟩],
   ⟨[(⟨7, 0⟩, 0), (⟨7, 1⟩, 1)]⟩, ⟨[], 0, [false, false], 0, 0, 0⟩, [], []⟩

/-- The state removeFile(7) leaves behind on `c10State`: frame 0 reset
(stale page id), its map entry gone, frame index 0 on the free list, the
pinned frame 1 untouched, no disk removeFile call. -/
def c10Post : BMState ClockState :=
  ⟨[⟨⟨7, 0⟩, 0, false, false⟩, ⟨⟨7, 1⟩, 2, true, false⟩],
   ⟨[(⟨7, 1⟩, 1)]⟩, ⟨[0], 0, [false, false], 0, 0, 0⟩, [], []⟩

/-- Witness for C10: the theorem applied to the concrete failing
removeFile(7) run on `c10State`. -/
theorem removeFile_pagePinned_partial_witness :
    c10Post.removed = c10State.removed ∧
    ∃ j < 2,
      (c10State.frames.getD j resetFrame).valid = true ∧
      (c10State.frames.getD j resetFrame).page_id.file_id = 7 ∧
      0 < (c10State.frames.getD j resetFrame).pin_count ∧
      (⟨7, 1⟩ : PageId) = (c10State.frames.getD j resetFrame).page_id ∧
      ∀ i < j,
        (c10State.frames.getD i resetFrame).valid = true →
        (c10State.frames.getD i resetFrame).page_id.file_id = 7 →
        (c10State.frames.getD i resetFrame).pin_count = 0 ∧
        c10Post.frames.getD i resetFrame =
          { c10State.frames.getD i resetFrame with
            valid := false, dirty := false, pin_count := 0 } ∧
        BufferMap.contains c10Post.map
          (c10State.frames.getD i resetFrame).page_id = false ∧
        i ∈ c10Post.pol.free :=
  removeFile_pagePinned_partial 2 4 7 c10State c10Post ⟨7, 1⟩ rfl

/-! ## Reachable states and the frame invariant (claim C6) -/

/-- Policy well-formedness: an invariant `I` on the policy state that is
preserved by every interface call and forces replace to return in-range
frame indices.  Both concrete policies satisfy it. -/
structure PolGood (bufSize : Nat) {σ : Type} (P : Pol σ) (I : σ → Prop) :
    Prop where
  replace_ok : ∀ st frames st1 r, I st →
    P.replace st frames = some (st1, r) →
    I st1 ∧ ∀ v, r = .ok v → v < bufSize
  pin_ok : ∀ f st, I st → I (P.pin f st)
  unpin_ok : ∀ f st, I st → I (P.unpin f st)
  free_ok : ∀ f st, f < bufSize → I st → I (P.freeFrame f st)

/-- The state invariant maintained by every BufferManager operation:
full frame table, invalid frames unpinned and clean, map consistent
(M1), policy state well-formed. -/
def GoodS (bufSize : Nat) {σ : Type} (I : σ → Prop) (s : BMState σ) :
    Prop :=
  s.frames.length = bufSize ∧ InvalidFramesClean s.frames ∧
    MapConsistent s.frames s.map ∧ I s.pol

theorem invalidFramesClean_set {frames : List Frame} {i : Nat} {x : Frame}
    (h : InvalidFramesClean frames)
    (hx : x.valid = false → x.pin_count = 0 ∧ x.dirty = false) :
    InvalidFramesClean (frames.set i x) := by
  intro f hf hv
  cases List.mem_or_eq_of_mem_set hf with
  | inl hmem => exact h f hmem hv
  | inr heq => rw [heq] at hv ⊢; exact hx hv

theorem invalidFramesClean_getD {frames : List Frame}
    (h : InvalidFramesClean frames) (i : Nat) :
    (frames.getD i resetFrame).valid = false →
    (frames.getD i resetFrame).pin_count = 0 ∧
      (frames.getD i resetFrame).dirty = false := by
  intro hv
  by_cases hlt : i < frames.length
  · refine h _ ?_ hv
    rw [List.getD_eq_getElem _ _ hlt]
    exact List.getElem_mem hlt
  · rw [List.getD_eq_default _ _ (Nat.le_of_not_lt hlt)]
    exact ⟨rfl, rfl⟩

/-- M1 is stable under overwriting a frame no map entry points to. -/
theorem mapConsistent_set_fresh {frames : List Frame} {m : BufferMap}
    {i : Nat} {x : Frame} (hmc : MapConsistent frames m)
    (hnone : ∀ e ∈ m.entries, e.2 ≠ i) :
    MapConsistent (frames.set i x) m := by
  intro e he
  obtain ⟨hlt, hv, hp⟩ := hmc e he
  have hne : ¬ i = e.2 := fun hh => (hnone e he) hh.symm
  exact ⟨by simpa using hlt, by rw [getD_set_ne _ _ hne]; exact hv,
    by rw [getD_set_ne _ _ hne]; exact hp⟩

/-- M1 after installing page `p` into a frame no entry points to. -/
theorem mapConsistent_insert_fresh {frames : List Frame} {m : BufferMap}
    {i : Nat} {p : PageId} (hmc : MapConsistent frames m)
    (hnone : ∀ e ∈ m.entries, e.2 ≠ i) (hi : i < frames.length) :
    MapConsistent (frames.set i ⟨p, 1, true, false⟩)
      ⟨(p, i) :: m.entries⟩ := by
  intro e he
  cases List.mem_cons.mp he with
  | inl he1 =>
    subst he1
    refine ⟨by simpa using hi, ?_, ?_⟩
    · rw [getD_set_self _ _ hi]
    · rw [getD_set_self _ _ hi]
  | inr he1 =>
    exact mapConsistent_set_fresh hmc hnone e he1

/-- After removing a valid frame's page from a consistent map, no entry
points at that frame any more. -/
theorem no_entry_to_frame_after_remove {frames : List Frame}
    {m m1 : BufferMap} {v : Nat} (hmc : MapConsistent frames m)
    (hrem : BufferMap.remove m (frames.getD v resetFrame).page_id =
      .ok m1) :
    ∀ e ∈ m1.entries, e.2 ≠ v := by
  intro e he hev
  rw [remove_ok_entries hrem] at he
  obtain ⟨hmem, hfil⟩ := List.mem_filter.mp he
  obtain ⟨_, _, hp⟩ := hmc e hmem
  rw [hev] at hp
  exact (of_decide_eq_true hfil) hp.symm

/-- In a consistent map no entry points at an invalid frame. -/
theorem no_entry_to_invalid_frame {frames : List Frame} {m : BufferMap}
    {v : Nat} (hmc : MapConsistent frames m)
    (hv : ¬ (frames.getD v resetFrame).valid = true) :
    ∀ e ∈ m.entries, e.2 ≠ v := by
  intro e he hev
  obtain ⟨_, hval, _⟩ := hmc e he
  rw [hev] at hval
  exact hv hval

theorem goodS_allocateFrame (bufSize : Nat) {σ : Type} {P : Pol σ}
    {I : σ → Prop} (hP : PolGood bufSize P I) (s s1 : BMState σ)
    (r : Except Err Nat) (hg : GoodS bufSize I s)
    (h : _allocateFrame P s = some (s1, r)) :
    GoodS bufSize I s1 ∧
      ∀ v, r = .ok v → v < bufSize ∧ ∀ e ∈ s1.map.entries, e.2 ≠ v := by
  obtain ⟨hlen, hic, hmc, hpol⟩ := hg
  unfold _allocateFrame at h
  cases hrep : P.replace s.pol s.frames with
  | none => rw [hrep] at h; cases h
  | some pr =>
    obtain ⟨pol1, r1⟩ := pr
    obtain ⟨hpol1, hv1⟩ := hP.replace_ok s.pol s.frames pol1 r1 hpol hrep
    cases r1 with
    | error e1 =>
      rw [hrep] at h
      simp only [Option.some.injEq, Prod.mk.injEq] at h
      obtain ⟨h1, h2⟩ := h
      subst h1
      exact ⟨⟨hlen, hic, hmc, hpol1⟩, fun v hveq => by rw [← h2] at hveq; cases hveq⟩
    | ok frame_id =>
      rw [hrep] at h
      simp only at h
      have hfb : frame_id < bufSize := hv1 frame_id rfl
      by_cases hval : (s.frames.getD frame_id resetFrame).valid = true
      · rw [hval] at h
        simp only [if_true, eq_self_iff_true] at h
        cases hrem : BufferMap.remove s.map
            (s.frames.getD frame_id resetFrame).page_id with
        | error e1 =>
          rw [hrem] at h
          simp only [Option.some.injEq, Prod.mk.injEq] at h
          obtain ⟨h1, h2⟩ := h
          subst h1
          exact ⟨⟨hlen, hic, hmc, hpol1⟩,
            fun v hveq => by rw [← h2] at hveq; cases hveq⟩
        | ok map1 =>
          rw [hrem] at h
          simp only [Option.some.injEq, Prod.mk.injEq] at h
          obtain ⟨h1, h2⟩ := h
          subst h1
          have hnone := no_entry_to_frame_after_remove hmc hrem
          refine ⟨⟨by simpa using hlen,
            invalidFramesClean_set hic (fun _ => ⟨rfl, rfl⟩),
            mapConsistent_set_fresh (mapConsistent_remove hmc hrem) hnone,
            hpol1⟩, ?_⟩
          intro v hveq
          rw [← h2] at hveq
          injection hveq with hveq1
          subst hveq1
          exact ⟨hfb, hnone⟩
      · rw [if_neg (by simpa using hval)] at h
        simp only [Option.some.injEq, Prod.mk.injEq] at h
        obtain ⟨h1, h2⟩ := h
        subst h1
        have hnone := no_entry_to_invalid_frame hmc hval
        refine ⟨⟨by simpa using hlen,
          invalidFramesClean_set hic (fun _ => ⟨rfl, rfl⟩),
          mapConsistent_set_fresh hmc hnone, hpol1⟩, ?_⟩
        intro v hveq
        rw [← h2] at hveq
        injection hveq with hveq1
        subst hveq1
        exact ⟨hfb, hnone⟩

theorem invalidFramesClean_set_valid {frames : List Frame} {i : Nat}
    {x : Frame} (h : InvalidFramesClean frames) (hx : x.valid = true) :
    InvalidFramesClean (frames.set i x) :=
  invalidFramesClean_set h (fun hxv => absurd (hx.symm.trans hxv) (by decide))

theorem goodS_allocatePage (bufSize : Nat) {σ : Type} {P : Pol σ}
    {I : σ → Prop} (hP : PolGood bufSize P I)
    (allocRes : Except Err PageId) (s s1 : BMState σ)
    (r : Except Err (Nat × PageId)) (hg : GoodS bufSize I s)
    (h : allocatePage bufSize P allocRes s = some (s1, r)) :
    GoodS bufSize I s1 := by
  unfold allocatePage at h
  by_cases hz : numUnpinned bufSize s.frames = 0
  · rw [if_pos hz] at h
    simp only [Option.some.injEq, Prod.mk.injEq] at h
    obtain ⟨h1, _⟩ := h
    subst h1
    exact hg
  · rw [if_neg hz] at h
    cases allocRes with
    | error e0 =>
      simp only [Option.some.injEq, Prod.mk.injEq] at h
      obtain ⟨h1, _⟩ := h
      subst h1
      exact hg
    | ok page_id =>
      cases haf : _allocateFrame P s with
      | none => rw [haf] at h; cases h
      | some pr =>
        obtain ⟨s2, r2⟩ := pr
        obtain ⟨hg2, hv2⟩ := goodS_allocateFrame bufSize hP s s2 r2 hg haf
        cases r2 with
        | error e1 =>
          rw [haf] at h
          simp only [Option.some.injEq, Prod.mk.injEq] at h
          obtain ⟨h1, _⟩ := h
          subst h1
          exact hg2
        | ok frame_id =>
          rw [haf] at h
          simp only at h
          obtain ⟨hfb, hnone⟩ := hv2 frame_id rfl
          obtain ⟨hlen2, hic2, hmc2, hpol2⟩ := hg2
          cases hins : BufferMap.insert s2.map page_id frame_id with
          | error e1 =>
            rw [hins] at h
            simp only [Option.some.injEq, Prod.mk.injEq] at h
            obtain ⟨h1, _⟩ := h
            subst h1
            exact ⟨by simpa using hlen2,
              invalidFramesClean_set_valid hic2 rfl,
              mapConsistent_set_fresh hmc2 hnone, hpol2⟩
          | ok map2 =>
            rw [hins] at h
            simp only [Option.some.injEq, Prod.mk.injEq] at h
            obtain ⟨h1, _⟩ := h
            subst h1
            obtain ⟨hent, _⟩ := insert_ok_entries hins
            refine ⟨by simpa using hlen2,
              invalidFramesClean_set_valid hic2 rfl, ?_,
              hP.pin_ok frame_id s2.pol hpol2⟩
            intro e he
            rw [hent] at he
            exact mapConsistent_insert_fresh hmc2 hnone
              (by rw [hlen2]; exact hfb) e he

theorem goodS_getPage (bufSize : Nat) {σ : Type} {P : Pol σ}
    {I : σ → Prop} (hP : PolGood bufSize P I) (readRes : Option Err)
    (page_id : PageId) (s s1 : BMState σ) (r : Except Err Nat)
    (hg : GoodS bufSize I s)
    (h : getPage bufSize P readRes page_id s = some (s1, r)) :
    GoodS bufSize I s1 := by
  obtain ⟨hlen, hic, hmc, hpol⟩ := hg
  unfold getPage at h
  by_cases hc : BufferMap.contains s.map page_id = true
  · rw [if_pos hc] at h
    cases hgt : BufferMap.get s.map page_id with
    | error e1 =>
      rw [hgt] at h
      simp only [Option.some.injEq, Prod.mk.injEq] at h
      obtain ⟨h1, _⟩ := h
      subst h1
      exact ⟨hlen, hic, hmc, hpol⟩
    | ok tmp =>
      rw [hgt] at h
      simp only [Option.some.injEq, Prod.mk.injEq] at h
      obtain ⟨h1, _⟩ := h
      subst h1
      obtain ⟨hlt, hv, hp⟩ := hmc (page_id, tmp) (get_ok_mem hgt)
      exact ⟨by simpa using hlen, invalidFramesClean_set_valid hic hv,
        mapConsistent_set_same_identity hmc tmp _ rfl rfl, hpol⟩
  · rw [if_neg hc] at h
    by_cases hz : numUnpinned bufSize s.frames = 0
    · rw [if_pos hz] at h
      simp only [Option.some.injEq, Prod.mk.injEq] at h
      obtain ⟨h1, _⟩ := h
      subst h1
      exact ⟨hlen, hic, hmc, hpol⟩
    · rw [if_neg hz] at h
      cases hrep : P.replace s.pol s.frames with
      | none => rw [hrep] at h; cases h
      | some pr =>
        obtain ⟨pol1, r1⟩ := pr
        obtain ⟨hpol1, hv1⟩ := hP.replace_ok s.pol s.frames pol1 r1 hpol hrep
        cases r1 with
        | error e1 =>
          rw [hrep] at h
          simp only [Option.some.injEq, Prod.mk.injEq] at h
          obtain ⟨h1, _⟩ := h
          subst h1
          exact ⟨hlen, hic, hmc, hpol1⟩
        | ok tmp =>
          rw [hrep] at h
          simp only at h
          have hfb : tmp < bufSize := hv1 tmp rfl
          have hflt : tmp < s.frames.length := by rw [hlen]; exact hfb
          cases hvB : (s.frames.getD tmp resetFrame).valid with
          | false =>
            rw [hvB] at h
            simp only [Bool.false_and, Bool.false_eq_true, if_false] at h
            have hnone := no_entry_to_invalid_frame hmc
              (by rw [hvB]; exact fun hh => by cases hh)
            cases readRes with
            | some e0 =>
              simp only [Option.some.injEq, Prod.mk.injEq] at h
              obtain ⟨h1, _⟩ := h
              subst h1
              exact ⟨hlen, hic, hmc, hpol1⟩
            | none =>
              cases hins : BufferMap.insert s.map page_id tmp with
              | error e1 =>
                rw [hins] at h
                simp only [Option.some.injEq, Prod.mk.injEq] at h
                obtain ⟨h1, _⟩ := h
                subst h1
                exact ⟨by simpa using hlen,
                  invalidFramesClean_set_valid hic rfl,
                  mapConsistent_set_fresh hmc hnone, hpol1⟩
              | ok map2 =>
                rw [hins] at h
                simp only [Option.some.injEq, Prod.mk.injEq] at h
                obtain ⟨h1, _⟩ := h
                subst h1
                obtain ⟨hent, _⟩ := insert_ok_entries hins
                refine ⟨by simpa using hlen,
                  invalidFramesClean_set_valid hic rfl, ?_,
                  hP.pin_ok tmp pol1 hpol1⟩
                intro e he
                rw [hent] at he
                exact mapConsistent_insert_fresh hmc hnone hflt e he
          | true =>
            rw [hvB] at h
            cases hdB : (s.frames.getD tmp resetFrame).dirty with
            | false =>
              rw [hdB] at h
              simp only [Bool.and_false, Bool.false_eq_true, if_false,
                eq_self_iff_true, if_true] at h
              cases hrem : BufferMap.remove s.map
                  (s.frames.getD tmp resetFrame).page_id with
              | error e1 =>
                rw [hrem] at h
                simp only [Option.some.injEq, Prod.mk.injEq] at h
                obtain ⟨h1, _⟩ := h
                subst h1
                exact ⟨hlen, hic, hmc, hpol1⟩
              | ok map1 =>
                rw [hrem] at h
                simp only at h
                have hmcr := mapConsistent_remove hmc hrem
                have hnone := no_entry_to_frame_after_remove hmc hrem
                cases readRes with
                | some e0 =>
                  simp only [Option.some.injEq, Prod.mk.injEq] at h
                  obtain ⟨h1, _⟩ := h
                  subst h1
                  exact ⟨hlen, hic, hmcr, hpol1⟩
                | none =>
                  cases hins : BufferMap.insert map1 page_id tmp with
                  | error e1 =>
                    rw [hins] at h
                    simp only [Option.some.injEq, Prod.mk.injEq] at h
                    obtain ⟨h1, _⟩ := h
                    subst h1
                    exact ⟨by simpa using hlen,
                      invalidFramesClean_set_valid hic rfl,
                      mapConsistent_set_fresh hmcr hnone, hpol1⟩
                  | ok map2 =>
                    rw [hins] at h
                    simp only [Option.some.injEq, Prod.mk.injEq] at h
                    obtain ⟨h1, _⟩ := h
                    subst h1
                    obtain ⟨hent, _⟩ := insert_ok_entries hins
                    refine ⟨by simpa using hlen,
                      invalidFramesClean_set_valid hic rfl, ?_,
                      hP.pin_ok tmp pol1 hpol1⟩
                    intro e he
                    rw [hent] at he
                    exact mapConsistent_insert_fresh hmcr hnone hflt e he
            | true =>
              rw [hdB] at h
              simp only [Bool.and_self, eq_self_iff_true, if_true] at h
              have hic2 : InvalidFramesClean (s.frames.set tmp
                  ⟨(s.frames.getD tmp resetFrame).page_id,
                    (s.frames.getD tmp resetFrame).pin_count, true, false⟩) :=
                invalidFramesClean_set_valid hic rfl
              have hmc2 := mapConsistent_set_clear_dirty_valid hmc tmp hvB
              have hlen2 : (s.frames.set tmp
                  ⟨(s.frames.getD tmp resetFrame).page_id,
                    (s.frames.getD tmp resetFrame).pin_count,
                    true, false⟩).length = bufSize := by
                rw [List.length_set]
                exact hlen
              cases hrem : BufferMap.remove s.map
                  (s.frames.getD tmp resetFrame).page_id with
              | error e1 =>
                rw [hrem] at h
                simp only [Option.some.injEq, Prod.mk.injEq] at h
                obtain ⟨h1, _⟩ := h
                subst h1
                exact ⟨hlen2, hic2, hmc2, hpol1⟩
              | ok map1 =>
                rw [hrem] at h
                simp only at h
                have hmcr := mapConsistent_remove hmc2 hrem
                have hnone := no_entry_to_frame_after_remove hmc hrem
                cases readRes with
                | some e0 =>
                  simp only [Option.some.injEq, Prod.mk.injEq] at h
                  obtain ⟨h1, _⟩ := h
                  subst h1
                  exact ⟨hlen2, hic2, hmcr, hpol1⟩
                | none =>
                  cases hins : BufferMap.insert map1 page_id tmp with
                  | error e1 =>
                    rw [hins] at h
                    simp only [Option.some.injEq, Prod.mk.injEq] at h
                    obtain ⟨h1, _⟩ := h
                    subst h1
                    exact ⟨by simpa using hlen2,
                      invalidFramesClean_set_valid hic2 rfl,
                      mapConsistent_set_fresh hmcr hnone, hpol1⟩
                  | ok map2 =>
                    rw [hins] at h
                    simp only [Option.some.injEq, Prod.mk.injEq] at h
                    obtain ⟨h1, _⟩ := h
                    subst h1
                    obtain ⟨hent, _⟩ := insert_ok_entries hins
                    refine ⟨by simpa using hlen2,
                      invalidFramesClean_set_valid hic2 rfl, ?_,
                      hP.pin_ok tmp pol1 hpol1⟩
                    intro e he
                    rw [hent] at he
                    exact mapConsistent_insert_fresh hmcr hnone
                      (by rw [hlen2]; exact hfb) e he

theorem goodS_releasePage (bufSize : Nat) {σ : Type} {P : Pol σ}
    {I : σ → Prop} (hP : PolGood bufSize P I) (page_id : PageId)
    (d : Bool) (s s1 : BMState σ) (r : Except Err Unit)
    (hg : GoodS bufSize I s) (h : releasePage P page_id d s = (s1, r)) :
    GoodS bufSize I s1 := by
  obtain ⟨hlen, hic, hmc, hpol⟩ := hg
  unfold releasePage at h
  by_cases hc : BufferMap.contains s.map page_id = true
  · rw [if_neg (fun hnc => hnc hc)] at h
    cases hgt : BufferMap.get s.map page_id with
    | error e1 =>
      rw [hgt] at h
      obtain ⟨h1, _⟩ := pair_eq h
      rw [← h1]
      exact ⟨hlen, hic, hmc, hpol⟩
    | ok tmp =>
      rw [hgt] at h
      simp only at h
      obtain ⟨hlt, hv, hp⟩ := hmc (page_id, tmp) (get_ok_mem hgt)
      by_cases hp0 : (s.frames.getD tmp resetFrame).pin_count = 0
      · rw [if_pos hp0] at h
        obtain ⟨h1, _⟩ := pair_eq h
        rw [← h1]
        exact ⟨hlen, hic, hmc, hpol⟩
      · rw [if_neg hp0] at h
        by_cases hz : (s.frames.getD tmp resetFrame).pin_count - 1 = 0
        · rw [if_pos hz] at h
          obtain ⟨h1, _⟩ := pair_eq h
          rw [← h1]
          exact ⟨by simpa using hlen, invalidFramesClean_set_valid hic hv,
            mapConsistent_set_same_identity hmc tmp _ rfl rfl,
            hP.unpin_ok tmp s.pol hpol⟩
        · rw [if_neg hz] at h
          obtain ⟨h1, _⟩ := pair_eq h
          rw [← h1]
          exact ⟨by simpa using hlen, invalidFramesClean_set_valid hic hv,
            mapConsistent_set_same_identity hmc tmp _ rfl rfl, hpol⟩
  · rw [if_pos hc] at h
    obtain ⟨h1, _⟩ := pair_eq h
    rw [← h1]
    exact ⟨hlen, hic, hmc, hpol⟩

theorem goodS_setDirty (bufSize : Nat) {σ : Type} {I : σ → Prop}
    (page_id : PageId) (s s1 : BMState σ) (r : Except Err Unit)
    (hg : GoodS bufSize I s) (h : setDirty page_id s = (s1, r)) :
    GoodS bufSize I s1 := by
  obtain ⟨hlen, hic, hmc, hpol⟩ := hg
  unfold setDirty at h
  by_cases hc : BufferMap.contains s.map page_id = true
  · rw [if_neg (fun hnc => hnc hc)] at h
    cases hgt : BufferMap.get s.map page_id with
    | error e1 =>
      rw [hgt] at h
      obtain ⟨h1, _⟩ := pair_eq h
      rw [← h1]
      exact ⟨hlen, hic, hmc, hpol⟩
    | ok tmp =>
      rw [hgt] at h
      simp only at h
      obtain ⟨hlt, hv, hp⟩ := hmc (page_id, tmp) (get_ok_mem hgt)
      obtain ⟨h1, _⟩ := pair_eq h
      rw [← h1]
      exact ⟨by simpa using hlen, invalidFramesClean_set_valid hic hv,
        mapConsistent_set_same_identity hmc tmp _ rfl rfl, hpol⟩
  · rw [if_pos hc] at h
    obtain ⟨h1, _⟩ := pair_eq h
    rw [← h1]
    exact ⟨hlen, hic, hmc, hpol⟩

theorem goodS_flushPage (bufSize : Nat) {σ : Type} {I : σ → Prop}
    (page_id : PageId) (s s1 : BMState σ) (r : Except Err Unit)
    (hg : GoodS bufSize I s) (h : flushPage page_id s = (s1, r)) :
    GoodS bufSize I s1 := by
  obtain ⟨hlen, hic, hmc, hpol⟩ := hg
  unfold flushPage at h
  by_cases hc : BufferMap.contains s.map page_id = true
  · rw [if_neg (fun hnc => hnc hc)] at h
    cases hgt : BufferMap.get s.map page_id with
    | error e1 =>
      rw [hgt] at h
      obtain ⟨h1, _⟩ := pair_eq h
      rw [← h1]
      exact ⟨hlen, hic, hmc, hpol⟩
    | ok tmp =>
      rw [hgt] at h
      simp only at h
      obtain ⟨hlt, hv, hp⟩ := hmc (page_id, tmp) (get_ok_mem hgt)
      by_cases hd : (s.frames.getD tmp resetFrame).dirty = true
      · rw [if_pos hd] at h
        obtain ⟨h1, _⟩ := pair_eq h
        rw [← h1]
        exact ⟨by simpa using hlen, invalidFramesClean_set_valid hic hv,
          mapConsistent_set_same_identity hmc tmp _ rfl rfl, hpol⟩
      · rw [if_neg hd] at h
        obtain ⟨h1, _⟩ := pair_eq h
        rw [← h1]
        exact ⟨hlen, hic, hmc, hpol⟩
  · rw [if_pos hc] at h
    obtain ⟨h1, _⟩ := pair_eq h
    rw [← h1]
    exact ⟨hlen, hic, hmc, hpol⟩

theorem goodS_deallocatePage (bufSize : Nat) {σ : Type} {P : Pol σ}
    {I : σ → Prop} (hP : PolGood bufSize P I) (dres : Except Err Unit)
    (page_id : PageId) (s s1 : BMState σ) (r : Except Err Unit)
    (hg : GoodS bufSize I s)
    (h : deallocatePage P dres page_id s = (s1, r)) :
    GoodS bufSize I s1 := by
  obtain ⟨hlen, hic, hmc, hpol⟩ := hg
  unfold deallocatePage at h
  by_cases hc : BufferMap.contains s.map page_id = true
  · rw [if_pos hc] at h
    cases hgt : BufferMap.get s.map page_id with
    | error e1 =>
      rw [hgt] at h
      obtain ⟨h1, _⟩ := pair_eq h
      rw [← h1]
      exact ⟨hlen, hic, hmc, hpol⟩
    | ok frame_id =>
      rw [hgt] at h
      simp only at h
      obtain ⟨hlt, hv, hp⟩ := hmc (page_id, frame_id) (get_ok_mem hgt)
      by_cases hpin : (s.frames.getD frame_id resetFrame).pin_count > 0
      · rw [if_pos hpin] at h
        obtain ⟨h1, _⟩ := pair_eq h
        rw [← h1]
        exact ⟨hlen, hic, hmc, hpol⟩
      · rw [if_neg hpin] at h
        cases hrem : BufferMap.remove s.map page_id with
        | error e1 =>
          rw [hrem] at h
          obtain ⟨h1, _⟩ := pair_eq h
          rw [← h1]
          exact ⟨hlen, hic, hmc, hpol⟩
        | ok map1 =>
          rw [hrem] at h
          obtain ⟨h1, _⟩ := pair_eq h
          rw [← h1]
          have hrem2 : BufferMap.remove s.map
              (s.frames.getD frame_id resetFrame).page_id = .ok map1 := by
            rw [hp]
            exact hrem
          refine ⟨by simpa using hlen,
            invalidFramesClean_set hic (fun _ => ⟨rfl, rfl⟩),
            mapConsistent_set_fresh (mapConsistent_remove hmc hrem)
              (no_entry_to_frame_after_remove hmc hrem2), ?_⟩
          refine hP.free_ok frame_id s.pol ?_ hpol
          rw [← hlen]
          exact hlt
  · rw [if_neg hc] at h
    obtain ⟨h1, _⟩ := pair_eq h
    rw [← h1]
    exact ⟨hlen, hic, hmc, hpol⟩

theorem goodS_removeFileLoop (bufSize : Nat) {σ : Type} {P : Pol σ}
    {I : σ → Prop} (hP : PolGood bufSize P I) (fid : Nat) :
    ∀ l : List Nat, (∀ i ∈ l, i < bufSize) →
    ∀ (s s1 : BMState σ) (r : Except Err Unit),
      removeFileLoop P fid l s = (s1, r) →
      GoodS bufSize I s → GoodS bufSize I s1 := by
  intro l
  induction l with
  | nil =>
    intro _ s s1 r h hg
    obtain ⟨h1, _⟩ := pair_eq h
    rw [← h1]
    exact hg
  | cons a rest ih =>
    intro hb s s1 r h hg
    obtain ⟨hlen, hic, hmc, hpol⟩ := hg
    have hbr : ∀ i ∈ rest, i < bufSize :=
      fun i hi => hb i (List.mem_cons_of_mem a hi)
    unfold removeFileLoop at h
    by_cases hm : ((s.frames.getD a resetFrame).valid &&
        (s.frames.getD a resetFrame).page_id.file_id = fid) = true
    · rw [if_pos hm] at h
      rw [Bool.and_eq_true] at hm
      obtain ⟨hmv, _⟩ := hm
      by_cases hpin : (s.frames.getD a resetFrame).pin_count > 0
      · rw [if_pos hpin] at h
        obtain ⟨h1, _⟩ := pair_eq h
        rw [← h1]
        exact ⟨hlen, hic, hmc, hpol⟩
      · rw [if_neg hpin] at h
        cases hrem : BufferMap.remove s.map
            (s.frames.getD a resetFrame).page_id with
        | error e1 =>
          rw [hrem] at h
          obtain ⟨h1, _⟩ := pair_eq h
          rw [← h1]
          exact ⟨hlen, hic, hmc, hpol⟩
        | ok map1 =>
          rw [hrem] at h
          refine ih hbr _ s1 r h ⟨by simpa using hlen,
            invalidFramesClean_set hic (fun _ => ⟨rfl, rfl⟩),
            mapConsistent_set_fresh (mapConsistent_remove hmc hrem)
              (no_entry_to_frame_after_remove hmc hrem), ?_⟩
          exact hP.free_ok a s.pol (hb a (List.mem_cons_self a rest)) hpol
    · rw [if_neg hm] at h
      exact ih hbr s s1 r h ⟨hlen, hic, hmc, hpol⟩

theorem goodS_removeFile (bufSize : Nat) {σ : Type} {P : Pol σ}
    {I : σ → Prop} (hP : PolGood bufSize P I) (fid : Nat)
    (s s1 : BMState σ) (r : Except Err Unit) (hg : GoodS bufSize I s)
    (h : removeFile bufSize P fid s = (s1, r)) :
    GoodS bufSize I s1 := by
  unfold removeFile at h
  cases hloop : removeFileLoop P fid (List.range bufSize) s with
  | mk s2 r2 =>
    rw [hloop] at h
    have hg2 := goodS_removeFileLoop bufSize hP fid (List.range bufSize)
      (fun i hi => List.mem_range.mp hi) s s2 r2 hloop hg
    cases r2 with
    | ok u =>
      obtain ⟨h1, _⟩ := pair_eq h
      rw [← h1]
      exact hg2
    | error e2 =>
      obtain ⟨h1, _⟩ := pair_eq h
      rw [← h1]
      exact hg2

/-- One BufferManager API call (any arguments, any disk-oracle
outcome), viewed as a transition between states.  Calls whose modelled
policy loop diverges produce no transition. -/
inductive Step (bufSize : Nat) {σ : Type} (P : Pol σ) :
    BMState σ → BMState σ → Prop where
  | alloc : ∀ s allocRes s1 r,
      allocatePage bufSize P allocRes s = some (s1, r) →
      Step bufSize P s s1
  | get : ∀ s readRes pid s1 r,
      getPage bufSize P readRes pid s = some (s1, r) →
      Step bufSize P s s1
  | release : ∀ s pid d s1 r,
      releasePage P pid d s = (s1, r) → Step bufSize P s s1
  | setD : ∀ s pid s1 r, setDirty pid s = (s1, r) → Step bufSize P s s1
  | flush : ∀ s pid s1 r, flushPage pid s = (s1, r) → Step bufSize P s s1
  | dealloc : ∀ s dres pid s1 r,
      deallocatePage P dres pid s = (s1, r) → Step bufSize P s s1
  | remove : ∀ s fid s1 r,
      removeFile bufSize P fid s = (s1, r) → Step bufSize P s s1

theorem goodS_init (bufSize : Nat) {σ : Type} {I : σ → Prop} (p0 : σ)
    (hp0 : I p0) : GoodS bufSize I (initBM bufSize p0) := by
  refine ⟨List.length_replicate bufSize resetFrame, ?_, ?_, hp0⟩
  · intro f hf _
    rw [List.eq_of_mem_replicate hf]
    exact ⟨rfl, rfl⟩
  · intro e he
    cases he

/-- Claim C6, amended: in every state reachable through the
BufferManager API from a freshly constructed manager (under any
well-formed replacement policy), every frame with valid == false has
pin_count == 0 and dirty == false.  (The claim's additional requirement
page_id == INVALID_PAGE_ID is refuted by the counterexample:
deallocatePage and removeFile clear valid, dirty and pin_count but leave
the stale page id in place.) -/
theorem reachable_invalid_frames_clean (bufSize : Nat) {σ : Type}
    (P : Pol σ) (I : σ → Prop) (hP : PolGood bufSize P I) (p0 : σ)
    (hp0 : I p0) (s : BMState σ)
    (h : Relation.ReflTransGen (Step bufSize P) (initBM bufSize p0) s) :
    InvalidFramesClean s.frames := by
  have hg : GoodS bufSize I s := by
    induction h with
    | refl => exact goodS_init bufSize p0 hp0
    | tail hpre hstep ih =>
      cases hstep with
      | alloc a b c d =>
        exact goodS_allocatePage bufSize hP _ _ _ _ ih d
      | get a b c d e =>
        exact goodS_getPage bufSize hP _ _ _ _ _ ih e
      | release a b c d e =>
        exact goodS_releasePage bufSize hP _ _ _ _ _ ih e
      | setD a b c d =>
        exact goodS_setDirty bufSize _ _ _ _ ih d
      | flush a b c d =>
        exact goodS_flushPage bufSize _ _ _ _ ih d
      | dealloc a b c d e =>
        exact goodS_deallocatePage bufSize hP _ _ _ _ _ ih e
      | remove a b c d =>
        exact goodS_removeFile bufSize hP _ _ _ _ ih d
  exact hg.2.1

/-- Well-formedness of the Clock policy state: positive pool size,
in-range clock hand, in-range free-list entries. -/
def ClockWF (bufSize : Nat) (st : ClockState) : Prop :=
  0 < bufSize ∧ st.clock_hand < bufSize ∧ ∀ f ∈ st.free, f < bufSize

theorem clockReplaceLoop_wf (bufSize : Nat) (frames : List Frame) :
    ∀ fuel (st : ClockState) (fc : Nat) (st1 : ClockState)
      (r : Except Err Nat), ClockWF bufSize st →
      clockReplaceLoop bufSize frames fuel st fc = some (st1, r) →
      ClockWF bufSize st1 ∧ ∀ v, r = .ok v → v < bufSize := by
  intro fuel
  induction fuel with
  | zero => intro st fc st1 r _ h; cases h
  | succ n ih =>
    intro st fc st1 r hwf h
    obtain ⟨hb, hh, hf⟩ := hwf
    simp only [clockReplaceLoop] at h
    by_cases hpin : (frames.getD st.clock_hand resetFrame).pin_count > 0
    · rw [if_pos hpin] at h
      exact ih (advanceClock bufSize st) (fc + 1) st1 r
        ⟨hb, Nat.mod_lt _ hb, hf⟩ h
    · rw [if_neg hpin] at h
      by_cases hv : (frames.getD st.clock_hand resetFrame).valid = true
      · rw [if_pos hv] at h
        by_cases hr : st.ref_table.getD st.clock_hand false = true
        · rw [if_pos hr] at h
          by_cases hfc : fc ≥ bufSize
          · rw [if_pos hfc] at h
            simp only [Option.some.injEq, Prod.mk.injEq] at h
            obtain ⟨h1, h2⟩ := h
            subst h1
            exact ⟨⟨hb, Nat.mod_lt _ hb, hf⟩,
              fun v hveq => by rw [← h2] at hveq; cases hveq⟩
          · rw [if_neg hfc] at h
            exact ih (advanceClock bufSize
              { st with ref_table := st.ref_table.set st.clock_hand false })
              fc st1 r ⟨hb, Nat.mod_lt _ hb, hf⟩ h
        · rw [if_neg hr] at h
          simp only [Option.some.injEq, Prod.mk.injEq] at h
          obtain ⟨h1, h2⟩ := h
          subst h1
          refine ⟨⟨hb, Nat.mod_lt _ hb, hf⟩, ?_⟩
          intro v hveq
          rw [← h2] at hveq
          injection hveq with hveq1
          subst hveq1
          exact hh
      · rw [if_neg hv] at h
        by_cases hfc : fc ≥ bufSize
        · rw [if_pos hfc] at h
          simp only [Option.some.injEq, Prod.mk.injEq] at h
          obtain ⟨h1, h2⟩ := h
          subst h1
          exact ⟨⟨hb, hh, hf⟩,
            fun v hveq => by rw [← h2] at hveq; cases hveq⟩
        · rw [if_neg hfc] at h
          exact ih st fc st1 r ⟨hb, hh, hf⟩ h

/-- The Clock policy satisfies the policy well-formedness contract. -/
theorem clockPol_good (bufSize fuel : Nat) :
    PolGood bufSize (clockPol bufSize fuel) (ClockWF bufSize) := by
  refine ⟨?_, ?_, ?_, ?_⟩
  · intro st frames st1 r hwf h
    obtain ⟨hb, hh, hf⟩ := hwf
    unfold clockPol at h
    simp only at h
    unfold clockReplace at h
    cases hfr : st.free with
    | nil =>
      rw [hfr] at h
      exact clockReplaceLoop_wf bufSize frames fuel st 0 st1 r ⟨hb, hh, hf⟩ h
    | cons f rest =>
      rw [hfr] at h
      simp only [Option.some.injEq, Prod.mk.injEq] at h
      obtain ⟨h1, h2⟩ := h
      subst h1
      refine ⟨⟨hb, hh, fun g hg =>
        hf g (by rw [hfr]; exact List.mem_cons_of_mem f hg)⟩, ?_⟩
      intro v hveq
      rw [← h2] at hveq
      injection hveq with hveq1
      subst hveq1
      exact hf f (by rw [hfr]; exact List.mem_cons_self f rest)
  · intro f st hwf
    exact hwf
  · intro f st hwf
    obtain ⟨hb, hh, hf⟩ := hwf
    exact ⟨hb, hh, hf⟩
  · intro f st hfb hwf
    obtain ⟨hb, hh, hf⟩ := hwf
    refine ⟨hb, hh, ?_⟩
    intro g hg
    cases List.mem_append.mp hg with
    | inl h1 => exact hf g h1
    | inr h1 => rw [List.mem_singleton.mp h1]; exact hfb

/-- State after allocating page (1,0) on a fresh two-frame pool. -/
def c6s1 : BMState ClockState :=
  ⟨[⟨⟨1, 0⟩, 1, true, false⟩, resetFrame], ⟨[(⟨1, 0⟩, 0)]⟩,
   ⟨[1], 0, [false, false], 0, 0, 0⟩, [], []⟩

/-- State after additionally releasing page (1,0) clean. -/
def c6s2 : BMState ClockState :=
  ⟨[⟨⟨1, 0⟩, 0, true, false⟩, resetFrame], ⟨[(⟨1, 0⟩, 0)]⟩,
   ⟨[1], 0, [true, false], 0, 0, 0⟩, [], []⟩

/-- State after additionally deallocating page (1,0): frame 0 is invalid
but still carries the stale page id (1,0). -/
def c6s3 : BMState ClockState :=
  ⟨[⟨⟨1, 0⟩, 0, false, false⟩, resetFrame], ⟨[]⟩,
   ⟨[1, 0], 0, [false, false], 0, 0, 0⟩, [], []⟩

/-- Claim C6, counterexample.  The API trace construction →
allocatePage → releasePage → deallocatePage reaches a state whose frame
0 has valid == false, pin_count == 0 and dirty == false but
page_id == (1,0) ≠ INVALID_PAGE_ID: deallocatePage clears only valid,
dirty and pin_count, so the spec's full invalid-frame invariant fails on
a reachable state (while its pin/dirty part, the amended claim, holds). -/
theorem deallocate_leaves_stale_page_id :
    Relation.ReflTransGen (Step 2 (clockPol 2 4))
      (initBM 2 (clockInit 2 0)) c6s3 ∧
    ¬ InvalidFramesReset c6s3.frames ∧
    InvalidFramesClean c6s3.frames := by
  refine ⟨?_, by decide, by decide⟩
  have h1 : Step 2 (clockPol 2 4) (initBM 2 (clockInit 2 0)) c6s1 :=
    Step.alloc _ (.ok ⟨1, 0⟩) c6s1 (.ok (0, ⟨1, 0⟩)) rfl
  have h2 : Step 2 (clockPol 2 4) c6s1 c6s2 :=
    Step.release _ ⟨1, 0⟩ false c6s2 (.ok ()) rfl
  have h3 : Step 2 (clockPol 2 4) c6s2 c6s3 :=
    Step.dealloc _ (.ok ()) ⟨1, 0⟩ c6s3 (.ok ()) rfl
  exact Relation.ReflTransGen.tail
    (Relation.ReflTransGen.tail
      (Relation.ReflTransGen.tail Relation.ReflTransGen.refl h1) h2) h3

/-- Witness for C6 (amended): the reachability theorem applied with the
Clock policy at the freshly constructed manager. -/
theorem reachable_invalid_frames_clean_witness :
    InvalidFramesClean
      ((initBM 2 (clockInit 2 0) : BMState ClockState)).frames :=
  reachable_invalid_frames_clean 2 (clockPol 2 4) (ClockWF 2)
    (clockPol_good 2 4) (clockInit 2 0)
    ⟨by decide, by decide, by decide⟩ _ Relation.ReflTransGen.refl

end BufMgrSpec
